import Mathlib

/-!
# A verification of the typed-storage core

This file shallowly embeds the two classes of the repository — `TypedStorage`
(the type-coercion serialization engine over a raw string store) and
`LiveStorage` (the deferred, key-scoped change-notification layer) — and
proves the spec's testable properties about them.

Modelling conventions:

* JavaScript numbers are modelled as exact decimal values `m * 10 ^ e`
  (an `Int` mantissa and `Int` exponent, kept in the normal form where the
  mantissa has no trailing zeros).  IEEE-754 rounding is not modelled; the
  code under verification performs no arithmetic on numbers, it only converts
  a decimal string to a number and renders it back, and the rendering rule of
  `Number.prototype.toString` (plain notation for decimal exponents in
  `(-6, 21]`, exponential notation outside) is reproduced on the exact value.
  `-0` is conflated with `0` and `NaN` is a distinct constructor.
* The host `JSON.stringify` / `JSON.parse` builtins are external collaborators
  of the repository; they are modelled by an executable renderer and a
  fuel-indexed recursive-descent parser over the JSON grammar without
  insignificant whitespace (the renderer never emits any) and with leading
  zeros of integer parts accepted.
* `console.warn` is modelled by a list of warning strings returned next to the
  parsed value, and thrown exceptions by `Except`.
-/

/-- Is `c` one of the ASCII digits `0`-`9`? -/
def isDigitChar (c : Char) : Bool := 48 ≤ c.toNat && c.toNat ≤ 57

/-- The ASCII digit character for a digit value `d < 10`. -/
def digitChar (d : Nat) : Char := Char.ofNat (48 + d)

/-- The digit value of an ASCII digit character. -/
def digitVal (c : Char) : Nat := c.toNat - 48

/-- Little-endian decimal digit characters of `n`, with explicit fuel so the
kernel can evaluate the definition. -/
def natDigitsAux : Nat → Nat → List Char
  | 0, _ => []
  | fuel + 1, n => if n = 0 then [] else digitChar (n % 10) :: natDigitsAux fuel (n / 10)

/-- The usual (most-significant first) decimal digit characters of `n`. -/
def natChars (n : Nat) : List Char :=
  if n = 0 then ['0'] else (natDigitsAux n n).reverse

/-- Value of a most-significant-first list of ASCII digit characters. -/
def digitsToNat (cs : List Char) : Nat :=
  cs.foldl (fun a c => 10 * a + digitVal c) 0

/-- Decimal digit characters of an integer, with a leading minus sign when
negative (the rendering used by `BigInt.prototype.toString`). -/
def intChars (i : Int) : List Char :=
  if i < 0 then '-' :: natChars i.natAbs else natChars i.natAbs

/-- Strip the trailing decimal zeros from `n`, returning the stripped core and
how many zeros were removed.  Fuel-structured for kernel evaluation. -/
def stripTrailAux : Nat → Nat → Nat × Nat
  | 0, n => (n, 0)
  | fuel + 1, n =>
    if n = 0 then (0, 0)
    else if n % 10 = 0 then
      let p := stripTrailAux fuel (n / 10)
      (p.1, p.2 + 1)
    else (n, 0)

/-- Strip the trailing decimal zeros from `n`. -/
def stripTrail (n : Nat) : Nat × Nat := stripTrailAux n n

/-- Normal form of the exact decimal `m * 10 ^ e`: trailing zeros of the
mantissa are moved into the exponent, and zero is `(0, 0)`. -/
def normDec (m e : Int) : Int × Int :=
  if m = 0 then (0, 0)
  else
    let p := stripTrail m.natAbs
    (if m < 0 then -(p.1 : Int) else (p.1 : Int), e + p.2)

/-- `Number.prototype.toString` on the exact decimal `m * 10 ^ e` (normalised
first): plain decimal notation when the decimal-point position lies in
`(-6, 21]`, exponential notation (`d.ddd e±x`) outside that range. -/
def decToChars (m0 e0 : Int) : List Char :=
  let p := normDec m0 e0
  let m := p.1
  let e := p.2
  if m = 0 then ['0']
  else
    let ds := natChars m.natAbs
    let k : Int := (ds.length : Int)
    let n : Int := e + k
    let sign : List Char := if m < 0 then ['-'] else []
    let body : List Char :=
      if 0 ≤ e ∧ n ≤ 21 then ds ++ List.replicate e.toNat '0'
      else if 0 < n ∧ n ≤ 21 then ds.take n.toNat ++ '.' :: ds.drop n.toNat
      else if -6 < n ∧ n ≤ 0 then '0' :: '.' :: (List.replicate (-n).toNat '0' ++ ds)
      else
        let head : List Char :=
          match ds with
          | [] => []
          | d :: rest => if rest.isEmpty then [d] else d :: '.' :: rest
        head ++ 'e' :: (if n - 1 < 0 then '-' :: natChars (n - 1).natAbs
                        else '+' :: natChars (n - 1).natAbs)
    sign ++ body

/-- The `Number(string)` conversion, restricted to the string-numeric-literal
grammar reachable from the numeric character set `{0-9, '.', '-'}`: an empty
string converts to `0`; otherwise an optional leading minus sign, then digits
with at most one decimal point and at least one digit.  `none` is `NaN`.
The result is a normalised exact decimal `(mantissa, exponent)`. -/
def jsNumChars (cs : List Char) : Option (Int × Int) :=
  if cs.isEmpty then some (0, 0)
  else
    let signed : Bool × List Char :=
      match cs with
      | '-' :: r => (true, r)
      | r => (false, r)
    let neg := signed.1
    let sp := signed.2.span isDigitChar
    let d1 := sp.1
    let mk : List Char → List Char → Option (Int × Int) := fun dInt dFrac =>
      let a : Int := (digitsToNat (dInt ++ dFrac) : Int)
      some (normDec (if neg then -a else a) (-(dFrac.length : Int)))
    match sp.2 with
    | [] => if d1.isEmpty then none else mk d1 []
    | '.' :: r2 =>
      let sp2 := r2.span isDigitChar
      if sp2.2.isEmpty && !(d1.isEmpty && sp2.1.isEmpty) then mk d1 sp2.1 else none
    | _ => none

/-- `toString` of a `Number(...)` result (`none` is `NaN`). -/
def jsNumToChars : Option (Int × Int) → List Char
  | none => ['N', 'a', 'N']
  | some p => decToChars p.1 p.2

/-- The `BigInt(string)` conversion restricted to the numeric character set:
an empty string converts to `0n`; otherwise an optional minus sign followed by
at least one digit and nothing else.  `none` is the thrown `SyntaxError`. -/
def jsBigIntChars (cs : List Char) : Option Int :=
  match cs with
  | [] => some 0
  | '-' :: r => if !r.isEmpty && r.all isDigitChar then some (-(digitsToNat r : Int)) else none
  | _ => if cs.all isDigitChar then some ((digitsToNat cs : Int)) else none

/-- JSON values, as produced by the host `JSON.parse` and consumed by
`JSON.stringify`.  Numbers are exact decimals `m * 10 ^ e`. -/
inductive Json where
  | null
  | bool (b : Bool)
  | num (m e : Int)
  | str (s : String)
  | arr (xs : List Json)
  | obj (fields : List (String × Json))

/-- Lower-case hexadecimal digit character for `n < 16`. -/
def hexDigitChar (n : Nat) : Char :=
  if n < 10 then digitChar n else Char.ofNat (87 + n)

/-- Is `c` a hexadecimal digit character? -/
def isHexChar (c : Char) : Bool :=
  isDigitChar c || (97 ≤ c.toNat && c.toNat ≤ 102) || (65 ≤ c.toNat && c.toNat ≤ 70)

/-- Value of a hexadecimal digit character. -/
def hexVal (c : Char) : Nat :=
  if 97 ≤ c.toNat then c.toNat - 87 else if 65 ≤ c.toNat then c.toNat - 55 else c.toNat - 48

/-- String-body escaping of one character, as `JSON.stringify` does it (with
the uniform `\u00xx` form for all control characters). -/
def escapeChar (c : Char) : List Char :=
  if c = '"' then ['\\', '"']
  else if c = '\\' then ['\\', '\\']
  else if c.toNat < 32 then
    ['\\', 'u', '0', '0', hexDigitChar (c.toNat / 16), hexDigitChar (c.toNat % 16)]
  else [c]

/-- Render a JSON string body (without the surrounding quotes). -/
def renderStrBody (cs : List Char) : List Char := cs.flatMap escapeChar

/-- Render a JSON number `m * 10 ^ e`: the mantissa's digits, with an explicit
exponent part when the exponent is nonzero. -/
def renderNum (m e : Int) : List Char :=
  if e = 0 then intChars m else intChars m ++ 'e' :: intChars e

mutual

/-- Model of the host `JSON.stringify` (over `List Char`): no insignificant
whitespace is emitted, strings are quoted and escaped, numbers are rendered by
`renderNum`. -/
def renderChars : Json → List Char
  | .null => ['n', 'u', 'l', 'l']
  | .bool false => ['f', 'a', 'l', 's', 'e']
  | .bool true => ['t', 'r', 'u', 'e']
  | .num m e => renderNum m e
  | .str s => '"' :: renderStrBody s.data ++ ['"']
  | .arr [] => ['[', ']']
  | .arr (x :: xs) => '[' :: (renderChars x ++ renderElemsT xs) ++ [']']
  | .obj [] => ['\x7b', '\x7d']
  | .obj (f :: fs) =>
    '\x7b' :: ('"' :: renderStrBody f.1.data ++ '"' :: ':' :: renderChars f.2 ++ renderFieldsT fs)
      ++ ['\x7d']

/-- The later elements of a rendered array, each preceded by a comma. -/
def renderElemsT : List Json → List Char
  | [] => []
  | y :: ys => ',' :: renderChars y ++ renderElemsT ys

/-- The later fields of a rendered object, each preceded by a comma. -/
def renderFieldsT : List (String × Json) → List Char
  | [] => []
  | f :: fs =>
    ',' :: '"' :: renderStrBody f.1.data ++ '"' :: ':' :: renderChars f.2 ++ renderFieldsT fs

end

/-- `JSON.stringify` as a `String`-valued function. -/
def jsonRender (j : Json) : String := String.mk (renderChars j)

/-- Unescape a single-character string escape. -/
def unescapeChar (c : Char) : Option Char :=
  if c = '"' then some '"'
  else if c = '\\' then some '\\'
  else if c = '/' then some '/'
  else if c = 'n' then some '\n'
  else if c = 't' then some '\t'
  else if c = 'r' then some '\r'
  else if c = 'b' then some (Char.ofNat 8)
  else if c = 'f' then some (Char.ofNat 12)
  else none

/-- Decode one string escape (the characters after a backslash), returning
the decoded character and the remaining input. -/
def pEsc : List Char → Option (Char × List Char)
  | 'u' :: h1 :: h2 :: h3 :: h4 :: r2 =>
    if isHexChar h1 && isHexChar h2 && isHexChar h3 && isHexChar h4 then
      some (Char.ofNat (((hexVal h1 * 16 + hexVal h2) * 16 + hexVal h3) * 16 + hexVal h4), r2)
    else none
  | e :: r2 => (unescapeChar e).map fun c => (c, r2)
  | [] => none

/-- Parse a JSON string body after the opening quote, consuming the closing
quote; returns the unescaped characters and the remaining input.  Raw control
characters are rejected, as `JSON.parse` rejects them.  Fuel-indexed for
kernel evaluation; each step consumes at least one input character. -/
def pStrChars : Nat → List Char → Option (List Char × List Char)
  | 0, _ => none
  | fuel + 1, cs =>
    match cs with
    | [] => none
    | c :: r =>
      if c = '"' then some ([], r)
      else if c = '\\' then
        match pEsc r with
        | some p => (pStrChars fuel p.2).map fun q => (p.1 :: q.1, q.2)
        | none => none
      else if c.toNat < 32 then none
      else (pStrChars fuel r).map fun p => (c :: p.1, p.2)

/-- Parse a JSON string body, with enough fuel for its input. -/
def pStr (cs : List Char) : Option (List Char × List Char) :=
  pStrChars (cs.length + 1) cs

/-- The digits-and-beyond part of the exponent parse, after the sign. -/
def pExpCore (neg : Bool) (cs : List Char) : Option (Int × List Char) :=
  let ds := cs.takeWhile isDigitChar
  if ds.isEmpty then none
  else
    some ((if neg then -(digitsToNat ds : Int) else (digitsToNat ds : Int)),
          cs.dropWhile isDigitChar)

/-- Parse the exponent part of a JSON number (after the `e`). -/
def pExp (cs : List Char) : Option (Int × List Char) :=
  if cs.head? = some '+' then pExpCore false cs.tail
  else if cs.head? = some '-' then pExpCore true cs.tail
  else pExpCore false cs

/-- The part of a JSON number parse after the optional minus sign: integer
digits, optional fraction, optional exponent. -/
def pNumCore (neg : Bool) (cs : List Char) : Option (Json × List Char) :=
  let d1 := cs.takeWhile isDigitChar
  let r1 := cs.dropWhile isDigitChar
  if d1.isEmpty then none
  else
    let fracP : Option (List Char × List Char) :=
      if r1.head? = some '.' then
        let d2 := r1.tail.takeWhile isDigitChar
        if d2.isEmpty then none else some (d2, r1.tail.dropWhile isDigitChar)
      else some ([], r1)
    match fracP with
    | none => none
    | some fp =>
      let expP : Option (Int × List Char) :=
        if fp.2.head? = some 'e' ∨ fp.2.head? = some 'E' then pExp fp.2.tail
        else some (0, fp.2)
      match expP with
      | none => none
      | some ep =>
        let a : Int := (digitsToNat (d1 ++ fp.1) : Int)
        some (.num (if neg then -a else a) (ep.1 - (fp.1.length : Int)), ep.2)

/-- Parse a JSON number: optional minus sign, integer digits, optional
fraction, optional exponent.  (Leading zeros are tolerated, a benign
relaxation of the JSON grammar.) -/
def pNum (cs : List Char) : Option (Json × List Char) :=
  if cs.head? = some '-' then pNumCore true cs.tail else pNumCore false cs

mutual

/-- Model of the host `JSON.parse` (fuel-indexed recursive descent over
`List Char`, returning the value and the unconsumed input; documents without
insignificant whitespace). -/
def pVal : Nat → List Char → Option (Json × List Char)
  | 0, _ => none
  | fuel + 1, cs =>
    match cs with
    | [] => none
    | c :: r =>
      if c = 'n' then
        match r with
        | 'u' :: 'l' :: 'l' :: r2 => some (.null, r2)
        | _ => none
      else if c = 't' then
        match r with
        | 'r' :: 'u' :: 'e' :: r2 => some (.bool true, r2)
        | _ => none
      else if c = 'f' then
        match r with
        | 'a' :: 'l' :: 's' :: 'e' :: r2 => some (.bool false, r2)
        | _ => none
      else if c = '"' then (pStr r).map fun p => (.str (String.mk p.1), p.2)
      else if c = '[' then
        if r.head? = some ']' then some (.arr [], r.tail)
        else (pElems fuel r).map fun p => (.arr p.1, p.2)
      else if c = '\x7b' then
        if r.head? = some '\x7d' then some (.obj [], r.tail)
        else (pFields fuel r).map fun p => (.obj p.1, p.2)
      else pNum cs

/-- Parse the elements of a nonempty array, consuming the closing bracket. -/
def pElems : Nat → List Char → Option (List Json × List Char)
  | 0, _ => none
  | fuel + 1, cs =>
    (pVal fuel cs).bind fun p =>
      match p.2 with
      | ',' :: r => (pElems fuel r).map fun q => (p.1 :: q.1, q.2)
      | ']' :: r => some ([p.1], r)
      | _ => none

/-- Parse the fields of a nonempty object, consuming the closing brace. -/
def pFields : Nat → List Char → Option (List (String × Json) × List Char)
  | 0, _ => none
  | fuel + 1, cs =>
    match cs with
    | '"' :: r =>
      (pStr r).bind fun kp =>
        match kp.2 with
        | ':' :: r2 =>
          (pVal fuel r2).bind fun vp =>
            match vp.2 with
            | ',' :: r3 => (pFields fuel r3).map fun q => ((String.mk kp.1, vp.1) :: q.1, q.2)
            | '\x7d' :: r3 => some ([(String.mk kp.1, vp.1)], r3)
            | _ => none
        | _ => none
    | _ => none

end

/-- `JSON.parse` as a `String`-valued partial function: the whole input must
be consumed.  `none` is the thrown `SyntaxError`. -/
def jsonParse (s : String) : Option Json :=
  match pVal (s.length + 1) s.data with
  | some p => if p.2.isEmpty then some p.1 else none
  | none => none

/-- Runtime values that can be handed to or returned from the typed store.
Constructors mirror the `typeof` classification the source dispatches on:
`jsNull`, `arr` and `obj` all have `typeof` `"object"`; `num`, `nan`, `big`
and `bool` expose a `toString` conversion; `undef` exposes none. -/
inductive JSValue where
  | str (s : String)
  | num (m e : Int)
  | nan
  | big (i : Int)
  | bool (b : Bool)
  | jsNull
  | arr (xs : List Json)
  | obj (fields : List (String × Json))
  | undef

/-- Inject a `JSON.parse` result into the runtime value type. -/
def jsonToJSValue : Json → JSValue
  | .null => .jsNull
  | .bool b => .bool b
  | .num m e => .num m e
  | .str s => .str s
  | .arr xs => .arr xs
  | .obj fs => .obj fs

/-- A `Number(...)` result as a runtime value (`none` is `NaN`). -/
def jsNumToJSValue : Option (Int × Int) → JSValue
  | none => .nan
  | some p => .num p.1 p.2

/-- The error taxonomy: `unsupportedType` is the `"Unsupported storage type"`
throw of default serialization, `quota` the persistent store's write
rejection, `bigIntError` the `SyntaxError` thrown by `BigInt(value)` inside
default deserialization. -/
inductive StorageError where
  | unsupportedType
  | quota
  | bigIntError
deriving DecidableEq

/-- The per-key override table (the `serialization` constructor argument):
for each key, optional custom serialize / deserialize functions. -/
structure Overrides where
  serialize : String → Option (JSValue → String)
  deserialize : String → Option (String → JSValue)

/-- The empty override table. -/
def noOverrides : Overrides := ⟨fun _ => none, fun _ => none⟩

/-- Set `k` to `v` in an association list, replacing an existing entry. -/
def insertEntry : List (String × String) → String → String → List (String × String)
  | [], k, v => [(k, v)]
  | e :: rest, k, v => if e.1 = k then (k, v) :: rest else e :: insertEntry rest k v

/-- Remove `k` from an association list. -/
def removeEntry : List (String × String) → String → List (String × String)
  | [], _ => []
  | e :: rest, k => if e.1 = k then rest else e :: removeEntry rest k

/-- The external `Storage` collaborator (browser `localStorage` /
`sessionStorage`): a string-keyed string store whose write may be rejected
(quota / permission); `failWrite` says which writes the host rejects. -/
structure RawStore where
  entries : List (String × String)
  failWrite : String → String → Bool

/-- `Storage.getItem`. -/
def RawStore.getItem (st : RawStore) (k : String) : Option String :=
  st.entries.lookup k

/-- `Storage.setItem`; `none` is the thrown quota/permission error. -/
def RawStore.setItem (st : RawStore) (k v : String) : Option RawStore :=
  if st.failWrite k v then none
  else some { st with entries := insertEntry st.entries k v }

/-- `Storage.removeItem`. -/
def RawStore.removeItem (st : RawStore) (k : String) : RawStore :=
  { st with entries := removeEntry st.entries k }

/-- `Storage.clear`. -/
def RawStore.clear (st : RawStore) : RawStore :=
  { st with entries := [] }

namespace TypedStorage

/-- `TypedStorage.numerics`: the numeric character set. -/
def numerics : List Char :=
  ['0', '1', '2', '3', '4', '5', '6', '7', '8', '9', '.', '-']

/-- `TypedStorage.toStorageString`: default serialization.  A string is
returned unchanged; a `typeof`-object value (`null`, arrays, objects) goes
through `JSON.stringify`; any other value with a `toString` method uses it;
otherwise the `"Unsupported storage type"` error is thrown. -/
def toStorageString : JSValue → Except StorageError String
  | .str s => .ok s
  | .jsNull => .ok (jsonRender .null)
  | .arr xs => .ok (jsonRender (.arr xs))
  | .obj fs => .ok (jsonRender (.obj fs))
  | .num m e => .ok (String.mk (decToChars m e))
  | .nan => .ok "NaN"
  | .big i => .ok (String.mk (intChars i))
  | .bool b => .ok (if b then "true" else "false")
  | .undef => .error .unsupportedType

/-- Does `s` start with the character `c`? -/
def startsWithChar (s : String) (c : Char) : Bool :=
  match s.data with
  | [] => false
  | c2 :: _ => c2 == c

/-- The `console.warn` diagnostic emitted when the JSON-decode step fails. -/
def warnMsg : String :=
  "TypedStorage: Attempt to run parse object failed. Returning the value as string"

/-- `TypedStorage.parse`: default deserialization.  A `\x7b`/`[`-prefixed raw
string is JSON-decoded, with a warning and the raw string returned on decode
failure; otherwise, when every character is in `numerics`, the raw string is
converted by `Number(...)`, falling back to `BigInt(...)` of the original
string when the number's `toString` contains an exponent marker; otherwise
the raw string is returned unchanged.  The returned list carries the
`console.warn` diagnostics emitted during the call. -/
def parse (value : String) : Except StorageError (JSValue × List String) :=
  if startsWithChar value '\x7b' || startsWithChar value '[' then
    match jsonParse value with
    | some j => .ok (jsonToJSValue j, [])
    | none => .ok (.str value, [warnMsg])
  else if value.data.all (fun c => numerics.contains c) then
    let n := jsNumChars value.data
    if (jsNumToChars n).contains 'e' then
      match jsBigIntChars value.data with
      | some i => .ok (.big i, [])
      | none => .error .bigIntError
    else .ok (jsNumToJSValue n, [])
  else .ok (.str value, [])

/-- Serialize `v` for `key`: the override table's `serialize` function when
present, default serialization otherwise. -/
def serializeFor (ov : Overrides) (key : String) (v : JSValue) : Except StorageError String :=
  match ov.serialize key with
  | some f => .ok (f v)
  | none => toStorageString v

/-- Forward a serialized string to the persistent store's write, surfacing the
quota/permission rejection as an error. -/
def persist (st : RawStore) (key s : String) : Except StorageError RawStore :=
  match st.setItem key s with
  | some st2 => .ok st2
  | none => .error .quota

/-- `TypedStorage.setItem`: serialize (override first), then write through. -/
def setItem (ov : Overrides) (st : RawStore) (key : String) (v : JSValue) :
    Except StorageError RawStore :=
  (serializeFor ov key v).bind (persist st key)

/-- `TypedStorage.getItem`: read raw; `null` when absent; otherwise the
override's `deserialize` when present, else default deserialization.  The
list carries the `console.warn` diagnostics emitted during the call. -/
def getItem (ov : Overrides) (st : RawStore) (key : String) :
    Except StorageError (Option JSValue × List String) :=
  match st.getItem key with
  | none => .ok (none, [])
  | some raw =>
    match ov.deserialize key with
    | some f => .ok (some (f raw), [])
    | none => (parse raw).map fun p => (some p.1, p.2)

/-- `TypedStorage.removeItem`: forwarded to the persistent store. -/
def removeItem (st : RawStore) (key : String) : RawStore :=
  st.removeItem key

end TypedStorage

namespace LiveStorage

/-- A unit of work scheduled on the microtask queue by `afterCallStack`:
either one `(key, value-or-null)` emission constructed at scheduling time, or
the `clear()` loop that reads `effectedKeys` only when it runs. -/
inductive Task where
  | emit (key : String) (value : Option JSValue)
  | clearEmit

/-- A `LiveStorage` instance together with its host scheduling context.
`subs` is the event emitter's registration table (key, listener id) in
registration order; `queue` the FIFO microtask queue; `delivered` the
chronological log of callback invocations `(key, listener id, value)` —
subscribers are passive observers here and do not re-enter the store. -/
structure LiveState where
  store : RawStore
  effectedKeys : List String
  subs : List (String × Nat)
  queue : List Task
  delivered : List (String × Nat × Option JSValue)

/-- `Set.add`: append when absent (JS sets iterate in insertion order). -/
def addKey (l : List String) (k : String) : List String :=
  if l.contains k then l else l ++ [k]

/-- `EventEmitter.emit key v`: invoke every listener registered on `key`, in
registration order. -/
def emitTo (subs : List (String × Nat)) (k : String) (v : Option JSValue) :
    List (String × Nat × Option JSValue) :=
  subs.filterMap fun s => if s.1 = k then some (k, s.2, v) else none

/-- `LiveStorage.setItem`: schedule the emission (closing over the exact
value), add the key to `effectedKeys`, then delegate the write; a throw from
the underlying store leaves the already-performed notifier mutations in
place. -/
def liveSetItem (ov : Overrides) (st : LiveState) (k : String) (v : JSValue) :
    LiveState × Option StorageError :=
  let st1 := { st with
    queue := st.queue ++ [Task.emit k (some v)],
    effectedKeys := addKey st.effectedKeys k }
  match TypedStorage.setItem ov st.store k v with
  | .ok s2 => ({ st1 with store := s2 }, none)
  | .error e => (st1, some e)

/-- `LiveStorage.removeItem`: schedule a `null` emission, drop the key, then
delegate the removal. -/
def liveRemoveItem (st : LiveState) (k : String) : LiveState :=
  { st with
    queue := st.queue ++ [Task.emit k none],
    effectedKeys := st.effectedKeys.erase k,
    store := st.store.removeItem k }

/-- `LiveStorage.clear`: schedule the deferred clear-loop, then synchronously
empty `effectedKeys` and wipe the underlying store. -/
def liveClear (st : LiveState) : LiveState :=
  { st with
    queue := st.queue ++ [Task.clearEmit],
    effectedKeys := [],
    store := st.store.clear }

/-- `LiveStorage.on`: register a listener on `key` (Lean reserves the name
`on`, hence `onKey`). -/
def onKey (st : LiveState) (k : String) (id : Nat) : LiveState :=
  { st with subs := st.subs ++ [(k, id)] }

/-- Run one queued task at the drain point.  The `clearEmit` loop reads
`effectedKeys` as it is when the drain happens — strictly after every
synchronous mutation — which is exactly the deferred read the source
performs. -/
def runTask (st : LiveState) : Task → List (String × Nat × Option JSValue)
  | .emit k v => emitTo st.subs k v
  | .clearEmit => st.effectedKeys.flatMap fun k => emitTo st.subs k none

/-- Drain the microtask queue, FIFO.  Because subscribers are passive,
no task mutates `effectedKeys`, `subs` or `queue` while draining, so the
drain is a single pass appending each task's deliveries to the log. -/
def drain (st : LiveState) : LiveState :=
  { st with queue := [], delivered := st.delivered ++ st.queue.flatMap (runTask st) }

/-- One synchronous mutating call on the live store. -/
inductive LiveOp where
  | set (key : String) (value : JSValue)
  | remove (key : String)
  | clear

/-- Run one synchronous call. -/
def runOp (ov : Overrides) (st : LiveState) : LiveOp → LiveState × Option StorageError
  | .set k v => liveSetItem ov st k v
  | .remove k => (liveRemoveItem st k, none)
  | .clear => (liveClear st, none)

/-- Run a synchronous call sequence; a thrown error aborts the rest of the
caller's turn (all tasks already scheduled stay queued). -/
def runOps (ov : Overrides) (st : LiveState) : List LiveOp → LiveState × Option StorageError
  | [] => (st, none)
  | op :: ops =>
    let p := runOp ov st op
    match p.2 with
    | none => runOps ov p.1 ops
    | some e => (p.1, some e)

/-- A fresh live store over a reliable (never-failing) backing store holding
`entries`, with listeners `subs` already registered. -/
def initLive (subs : List (String × Nat)) (entries : List (String × String)) : LiveState :=
  ⟨⟨entries, fun _ _ => false⟩, [], subs, [], []⟩

end LiveStorage

/-! ## Digit-rendering lemmas -/

theorem digitVal_digitChar (d : Nat) (h : d < 10) : digitVal (digitChar d) = d := by
  interval_cases d <;> decide

theorem isDigitChar_digitChar (d : Nat) (h : d < 10) : isDigitChar (digitChar d) = true := by
  interval_cases d <;> decide

theorem foldr_natDigitsAux : ∀ (fuel n : Nat), n ≤ fuel →
    (natDigitsAux fuel n).foldr (fun c a => 10 * a + digitVal c) 0 = n
  | 0, n, h => by
    have h0 : n = 0 := Nat.le_zero.mp h
    subst h0; rfl
  | fuel + 1, n, h => by
    unfold natDigitsAux
    by_cases h0 : n = 0
    · simp [h0]
    · rw [if_neg h0]
      have hdiv : n / 10 < n := Nat.div_lt_self (Nat.pos_of_ne_zero h0) (by norm_num)
      simp only [List.foldr_cons]
      rw [foldr_natDigitsAux fuel (n / 10) (by omega)]
      rw [digitVal_digitChar _ (Nat.mod_lt _ (by norm_num))]
      omega

theorem digitsToNat_natChars (n : Nat) : digitsToNat (natChars n) = n := by
  unfold natChars digitsToNat
  by_cases h0 : n = 0
  · subst h0; rfl
  · rw [if_neg h0, List.foldl_reverse]
    exact foldr_natDigitsAux n n le_rfl

theorem mem_natDigitsAux_digit : ∀ (fuel n : Nat) (c : Char), c ∈ natDigitsAux fuel n →
    isDigitChar c = true
  | 0, _, _, h => by simp [natDigitsAux] at h
  | fuel + 1, n, c, h => by
    unfold natDigitsAux at h
    by_cases h0 : n = 0
    · simp [h0] at h
    · rw [if_neg h0] at h
      rcases List.mem_cons.mp h with h1 | h1
      · subst h1; exact isDigitChar_digitChar _ (Nat.mod_lt _ (by norm_num))
      · exact mem_natDigitsAux_digit fuel (n / 10) c h1

theorem mem_natChars_digit (n : Nat) (c : Char) (h : c ∈ natChars n) :
    isDigitChar c = true := by
  unfold natChars at h
  by_cases h0 : n = 0
  · rw [if_pos h0] at h
    simp at h
    subst h; decide
  · rw [if_neg h0, List.mem_reverse] at h
    exact mem_natDigitsAux_digit n n c h

theorem natChars_ne_nil (n : Nat) : natChars n ≠ [] := by
  unfold natChars
  by_cases h0 : n = 0
  · simp [h0]
  · rw [if_neg h0]
    cases n with
    | zero => exact absurd rfl h0
    | succ m => simp [natDigitsAux]

theorem natChars_head_digit (n : Nat) :
    ∃ d ds, natChars n = d :: ds ∧ isDigitChar d = true := by
  cases hc : natChars n with
  | nil => exact absurd hc (natChars_ne_nil n)
  | cons d ds =>
    exact ⟨d, ds, rfl, mem_natChars_digit n d (hc ▸ List.mem_cons_self d ds)⟩

/-- Splitting `takeWhile`/`dropWhile` across an append whose left part
satisfies the predicate and whose right part starts with a failing element. -/
theorem takeWhile_exact (p : Char → Bool) :
    ∀ (l1 l2 : List Char), (∀ c ∈ l1, p c = true) →
      (∀ c, l2.head? = some c → p c = false) →
      (l1 ++ l2).takeWhile p = l1 ∧ (l1 ++ l2).dropWhile p = l2
  | [], l2, _, h2 => by
    cases l2 with
    | nil => exact ⟨rfl, rfl⟩
    | cons c t =>
      constructor
      · simp [List.takeWhile_cons, h2 c rfl]
      · simp [List.dropWhile_cons, h2 c rfl]
  | c :: t, l2, h1, h2 => by
    have hc : p c = true := h1 c (List.mem_cons_self c t)
    have ih := takeWhile_exact p t l2 (fun x hx => h1 x (List.mem_cons_of_mem _ hx)) h2
    constructor
    · simp [List.takeWhile_cons, hc, ih.1]
    · simp [List.dropWhile_cons, hc, ih.2]

/-! ## String-body round trip -/

theorem hexVal_hexDigitChar (n : Nat) (h : n < 16) : hexVal (hexDigitChar n) = n := by
  interval_cases n <;> decide

theorem isHexChar_hexDigitChar (n : Nat) (h : n < 16) : isHexChar (hexDigitChar n) = true := by
  interval_cases n <;> decide

theorem pStrChars_quote (f : Nat) (r : List Char) :
    pStrChars (f + 1) ('"' :: r) = some ([], r) := rfl

theorem pStrChars_esc (f : Nat) (r : List Char) :
    pStrChars (f + 1) ('\\' :: r) =
      (match pEsc r with
       | some p => (pStrChars f p.2).map fun q => (p.1 :: q.1, q.2)
       | none => none) := rfl

theorem pStrChars_plain (f : Nat) (c : Char) (r : List Char)
    (hq : ¬ c = '"') (hb : ¬ c = '\\') (hc : ¬ c.toNat < 32) :
    pStrChars (f + 1) (c :: r) = (pStrChars f r).map fun p => (c :: p.1, p.2) := by
  show (if c = '"' then some ([], r)
        else if c = '\\' then
          match pEsc r with
          | some p => (pStrChars f p.2).map fun q => (p.1 :: q.1, q.2)
          | none => none
        else if c.toNat < 32 then none
        else (pStrChars f r).map fun p => (c :: p.1, p.2)) = _
  rw [if_neg hq, if_neg hb, if_neg hc]

theorem pStrChars_render : ∀ (cs : List Char) (fuel : Nat) (rest : List Char),
    cs.length < fuel →
    pStrChars fuel (renderStrBody cs ++ '"' :: rest) = some (cs, rest)
  | [], fuel, rest, hf => by
    cases fuel with
    | zero => exact absurd hf (Nat.not_lt_zero _)
    | succ f => exact pStrChars_quote f rest
  | c :: t, fuel, rest, hf => by
    cases fuel with
    | zero => exact absurd hf (Nat.not_lt_zero _)
    | succ f =>
      have hlt : t.length < f := by
        simp only [List.length_cons] at hf
        omega
      have ih := pStrChars_render t f rest hlt
      have hbody : renderStrBody (c :: t) = escapeChar c ++ renderStrBody t := by
        simp [renderStrBody]
      rw [hbody, List.append_assoc]
      by_cases hq : c = '"'
      · subst hq
        rw [show escapeChar '"' = ['\\', '"'] from rfl]
        rw [List.cons_append, List.cons_append, List.nil_append, pStrChars_esc]
        rw [show pEsc ('"' :: (renderStrBody t ++ '"' :: rest)) =
              some ('"', renderStrBody t ++ '"' :: rest) from rfl]
        dsimp only
        rw [ih]
        rfl
      · by_cases hb : c = '\\'
        · subst hb
          rw [show escapeChar '\\' = ['\\', '\\'] from rfl]
          rw [List.cons_append, List.cons_append, List.nil_append, pStrChars_esc]
          rw [show pEsc ('\\' :: (renderStrBody t ++ '"' :: rest)) =
                some ('\\', renderStrBody t ++ '"' :: rest) from rfl]
          dsimp only
          rw [ih]
          rfl
        · by_cases hc : c.toNat < 32
          · have h16a : c.toNat / 16 < 16 := by omega
            have h16b : c.toNat % 16 < 16 := Nat.mod_lt _ (by norm_num)
            have hval : ((hexVal '0' * 16 + hexVal '0') * 16
                + hexVal (hexDigitChar (c.toNat / 16)))
                * 16 + hexVal (hexDigitChar (c.toNat % 16)) = c.toNat := by
              rw [hexVal_hexDigitChar _ h16a, hexVal_hexDigitChar _ h16b]
              have h0 : hexVal '0' = 0 := by decide
              rw [h0]
              omega
            have hesc : pEsc ('u' :: '0' :: '0' :: hexDigitChar (c.toNat / 16)
                  :: hexDigitChar (c.toNat % 16) :: (renderStrBody t ++ '"' :: rest)) =
                some (c, renderStrBody t ++ '"' :: rest) := by
              show (if (isHexChar '0' && isHexChar '0' && isHexChar (hexDigitChar (c.toNat / 16))
                        && isHexChar (hexDigitChar (c.toNat % 16))) = true then
                  some (Char.ofNat (((hexVal '0' * 16 + hexVal '0') * 16
                      + hexVal (hexDigitChar (c.toNat / 16))) * 16
                      + hexVal (hexDigitChar (c.toNat % 16))),
                    renderStrBody t ++ '"' :: rest)
                else none) = _
              rw [if_pos (by
                rw [isHexChar_hexDigitChar _ h16a, isHexChar_hexDigitChar _ h16b]
                rfl)]
              rw [hval, Char.ofNat_toNat]
            rw [show escapeChar c = '\\' :: 'u' :: '0' :: '0'
                  :: hexDigitChar (c.toNat / 16) :: [hexDigitChar (c.toNat % 16)] from by
              simp [escapeChar, hq, hb, hc]]
            simp only [List.cons_append, List.nil_append]
            rw [pStrChars_esc, hesc]
            dsimp only
            rw [ih]
            rfl
          · rw [show escapeChar c = [c] from by simp [escapeChar, hq, hb, hc]]
            simp only [List.cons_append, List.nil_append]
            rw [pStrChars_plain f c _ hq hb hc, ih]
            rfl

/-! ## Number round trip -/

/-- The characters that may follow a complete rendered JSON value:
end of input or a separator. -/
def Delim (rest : List Char) : Prop :=
  ∀ c, rest.head? = some c → c = ',' ∨ c = ']' ∨ c = '\x7d'

theorem delim_nil : Delim [] := fun _ h => by cases h

theorem delim_not_digit (rest : List Char) (hd : Delim rest) :
    ∀ c, rest.head? = some c → isDigitChar c = false := by
  intro c h
  rcases hd c h with h1 | h1 | h1 <;> subst h1 <;> decide

theorem digit_ne (c c' : Char) (h : isDigitChar c = true) (h' : isDigitChar c' = false) :
    c ≠ c' := fun he => by
  subst he
  exact absurd (h.symm.trans h') (by decide)

theorem pExpCore_digits (neg : Bool) (A rest : List Char)
    (hA : ∀ c ∈ A, isDigitChar c = true) (hne : A ≠ [])
    (hrest : ∀ c, rest.head? = some c → isDigitChar c = false) :
    pExpCore neg (A ++ rest) =
      some ((if neg then -(digitsToNat A : Int) else (digitsToNat A : Int)), rest) := by
  have hsplit := takeWhile_exact isDigitChar A rest hA hrest
  have hAne : A.isEmpty = false := by
    cases A with
    | nil => exact absurd rfl hne
    | cons a t => rfl
  simp only [pExpCore]
  rw [hsplit.1, hsplit.2, if_neg (by rw [hAne]; exact Bool.false_ne_true)]

theorem pExp_intChars (e : Int) (rest : List Char)
    (hrest : ∀ c, rest.head? = some c → isDigitChar c = false) :
    pExp (intChars e ++ rest) = some (e, rest) := by
  have hAdig : ∀ c ∈ natChars e.natAbs, isDigitChar c = true := mem_natChars_digit e.natAbs
  have hAne : natChars e.natAbs ≠ [] := natChars_ne_nil e.natAbs
  obtain ⟨d, ds, hA, hd⟩ := natChars_head_digit e.natAbs
  by_cases hneg : e < 0
  · have hi : intChars e = '-' :: natChars e.natAbs := by
      unfold intChars
      rw [if_pos hneg]
    rw [hi, List.cons_append]
    rw [show pExp ('-' :: (natChars e.natAbs ++ rest)) =
          pExpCore true (natChars e.natAbs ++ rest) from rfl]
    rw [pExpCore_digits true _ _ hAdig hAne hrest, digitsToNat_natChars]
    have hv : -((e.natAbs : Nat) : Int) = e := by omega
    rw [if_pos (rfl : true = true), hv]
  · have hi : intChars e = natChars e.natAbs := by
      unfold intChars
      rw [if_neg hneg]
    rw [hi]
    have hhead : (natChars e.natAbs ++ rest).head? = some d := by
      rw [hA]
      rfl
    have hstep : pExp (natChars e.natAbs ++ rest) = pExpCore false (natChars e.natAbs ++ rest) := by
      unfold pExp
      rw [if_neg (by rw [hhead]; simp only [Option.some.injEq]
                     exact digit_ne d '+' hd (by decide)),
          if_neg (by rw [hhead]; simp only [Option.some.injEq]
                     exact digit_ne d '-' hd (by decide))]
    rw [hstep, pExpCore_digits false _ _ hAdig hAne hrest, digitsToNat_natChars]
    have hv : ((e.natAbs : Nat) : Int) = e := by omega
    rw [if_neg (show ¬(false = true) from by decide), hv]

theorem delim_ne (rest : List Char) (hd : Delim rest) (c : Char)
    (hc : c ≠ ',' ∧ c ≠ ']' ∧ c ≠ '\x7d') : ¬ (rest.head? = some c) := by
  intro h
  rcases hd c h with h1 | h1 | h1
  · exact hc.1 h1
  · exact hc.2.1 h1
  · exact hc.2.2 h1

theorem pNumCore_render (neg : Bool) (a : Nat) (e : Int) (rest : List Char) (hrest : Delim rest) :
    pNumCore neg (natChars a ++ ((if e = 0 then [] else 'e' :: intChars e) ++ rest)) =
      some (.num (if neg then -(a : Int) else (a : Int)) e, rest) := by
  have hAdig : ∀ c ∈ natChars a, isDigitChar c = true := mem_natChars_digit a
  have hAne : (natChars a).isEmpty = false := by
    cases h : natChars a with
    | nil => exact absurd h (natChars_ne_nil a)
    | cons x t => rfl
  by_cases he : e = 0
  · rw [if_pos he, List.nil_append]
    have hsplit := takeWhile_exact isDigitChar (natChars a) rest hAdig
      (delim_not_digit rest hrest)
    simp only [pNumCore]
    rw [hsplit.1, hsplit.2, if_neg (by rw [hAne]; exact Bool.false_ne_true)]
    rw [if_neg (delim_ne rest hrest '.' (by refine ⟨?_, ?_, ?_⟩ <;> decide))]
    dsimp only
    rw [if_neg (show ¬(rest.head? = some 'e' ∨ rest.head? = some 'E') from by
      rintro (h | h)
      · exact delim_ne rest hrest 'e' (by refine ⟨?_, ?_, ?_⟩ <;> decide) h
      · exact delim_ne rest hrest 'E' (by refine ⟨?_, ?_, ?_⟩ <;> decide) h)]
    dsimp only
    rw [List.append_nil, digitsToNat_natChars, he]
    norm_num
  · rw [if_neg he, List.cons_append]
    have hsplit := takeWhile_exact isDigitChar (natChars a) ('e' :: (intChars e ++ rest)) hAdig
      (by intro c h
          rw [List.head?_cons, Option.some.injEq] at h
          subst h
          decide)
    simp only [pNumCore, List.cons_append] at hsplit ⊢
    rw [hsplit.1, hsplit.2, if_neg (by rw [hAne]; exact Bool.false_ne_true)]
    rw [if_neg (show ¬(('e' :: (intChars e ++ rest)).head? = some '.') from by
      rw [List.head?_cons]
      simp only [Option.some.injEq]
      decide)]
    dsimp only
    rw [if_pos (Or.inl (show ('e' :: (intChars e ++ rest)).head? = some 'e' from rfl))]
    rw [List.tail_cons, pExp_intChars e rest (delim_not_digit rest hrest)]
    dsimp only
    rw [List.append_nil, digitsToNat_natChars]
    norm_num

theorem pNum_render (m e : Int) (rest : List Char) (hrest : Delim rest) :
    pNum (renderNum m e ++ rest) = some (.num m e, rest) := by
  have hren : renderNum m e = intChars m ++ (if e = 0 then [] else 'e' :: intChars e) := by
    unfold renderNum
    by_cases he : e = 0
    · rw [if_pos he, if_pos he, List.append_nil]
    · rw [if_neg he, if_neg he]
  rw [hren, List.append_assoc]
  by_cases hm : m < 0
  · have hi : intChars m = '-' :: natChars m.natAbs := by
      unfold intChars
      rw [if_pos hm]
    rw [hi, List.cons_append]
    have hstep : ∀ X, pNum ('-' :: X) = pNumCore true X := fun X => rfl
    rw [hstep, pNumCore_render true m.natAbs e rest hrest]
    have hv : -((m.natAbs : Nat) : Int) = m := by omega
    rw [if_pos (rfl : true = true), hv]
  · have hi : intChars m = natChars m.natAbs := by
      unfold intChars
      rw [if_neg hm]
    rw [hi]
    obtain ⟨d, ds, hA, hd⟩ := natChars_head_digit m.natAbs
    have hstep : pNum (natChars m.natAbs
          ++ ((if e = 0 then [] else 'e' :: intChars e) ++ rest)) =
        pNumCore false (natChars m.natAbs
          ++ ((if e = 0 then [] else 'e' :: intChars e) ++ rest)) := by
      unfold pNum
      rw [if_neg (by
        rw [hA, List.cons_append, List.head?_cons]
        simp only [Option.some.injEq]
        exact digit_ne d '-' hd (by decide))]
    rw [hstep, pNumCore_render false m.natAbs e rest hrest]
    have hv : ((m.natAbs : Nat) : Int) = m := by omega
    rw [if_neg (show ¬(false = true) from by decide), hv]

/-! ## JSON value round trip -/

mutual

/-- Parser fuel sufficient for a rendered value. -/
def jfuel : Json → Nat
  | .null => 1
  | .bool _ => 1
  | .num _ _ => 1
  | .str _ => 1
  | .arr [] => 1
  | .arr (x :: xs) => 1 + jfuelElems x xs
  | .obj [] => 1
  | .obj (g :: gs) => 1 + jfuelFields g gs
termination_by j => sizeOf j
decreasing_by all_goals (simp_wf; try omega)

/-- Parser fuel sufficient for the rendered elements of a nonempty array. -/
def jfuelElems : Json → List Json → Nat
  | x, [] => 1 + jfuel x
  | x, y :: ys => 1 + max (jfuel x) (jfuelElems y ys)
termination_by x xs => 1 + sizeOf x + sizeOf xs
decreasing_by all_goals (simp_wf; try omega)

/-- Parser fuel sufficient for the rendered fields of a nonempty object. -/
def jfuelFields : String × Json → List (String × Json) → Nat
  | (_, v), [] => 1 + jfuel v
  | (_, v), h :: hs => 1 + max (jfuel v) (jfuelFields h hs)
termination_by g gs => 1 + sizeOf g + sizeOf gs
decreasing_by all_goals (simp_wf; try omega)

end

theorem pVal_quote (f : Nat) (r : List Char) :
    pVal (f + 1) ('"' :: r) = (pStr r).map fun p => (.str (String.mk p.1), p.2) := rfl

theorem pVal_lbrack (f : Nat) (r : List Char) :
    pVal (f + 1) ('[' :: r) =
      if r.head? = some ']' then some (.arr [], r.tail)
      else (pElems f r).map fun p => (.arr p.1, p.2) := rfl

theorem pVal_lbrace (f : Nat) (r : List Char) :
    pVal (f + 1) ('\x7b' :: r) =
      if r.head? = some '\x7d' then some (.obj [], r.tail)
      else (pFields f r).map fun p => (.obj p.1, p.2) := rfl

theorem pElems_succ (f : Nat) (cs : List Char) :
    pElems (f + 1) cs =
      (pVal f cs).bind fun p =>
        match p.2 with
        | ',' :: r => (pElems f r).map fun q => (p.1 :: q.1, q.2)
        | ']' :: r => some ([p.1], r)
        | _ => none := rfl

theorem pFields_succ_quote (f : Nat) (r : List Char) :
    pFields (f + 1) ('"' :: r) =
      (pStr r).bind fun kp =>
        match kp.2 with
        | ':' :: r2 =>
          (pVal f r2).bind fun vp =>
            match vp.2 with
            | ',' :: r3 => (pFields f r3).map fun q => ((String.mk kp.1, vp.1) :: q.1, q.2)
            | '\x7d' :: r3 => some ([(String.mk kp.1, vp.1)], r3)
            | _ => none
        | _ => none := rfl

theorem pVal_other (f : Nat) (c : Char) (r : List Char)
    (h : ¬ c = 'n' ∧ ¬ c = 't' ∧ ¬ c = 'f' ∧ ¬ c = '"' ∧ ¬ c = '[' ∧ ¬ c = '\x7b') :
    pVal (f + 1) (c :: r) = pNum (c :: r) := by
  rw [pVal.eq_def]
  dsimp only
  rw [if_neg h.1, if_neg h.2.1, if_neg h.2.2.1, if_neg h.2.2.2.1, if_neg h.2.2.2.2.1,
      if_neg h.2.2.2.2.2]

theorem renderNum_cons (m e : Int) :
    ∃ c r, renderNum m e = c :: r ∧ (c = '-' ∨ isDigitChar c = true) := by
  have hren : renderNum m e = intChars m ++ (if e = 0 then [] else 'e' :: intChars e) := by
    unfold renderNum
    by_cases he : e = 0
    · rw [if_pos he, if_pos he, List.append_nil]
    · rw [if_neg he, if_neg he]
  obtain ⟨d, ds, hA, hd⟩ := natChars_head_digit m.natAbs
  by_cases hm : m < 0
  · refine ⟨'-', natChars m.natAbs ++ (if e = 0 then [] else 'e' :: intChars e), ?_, Or.inl rfl⟩
    rw [hren]
    unfold intChars
    rw [if_pos hm, List.cons_append]
  · refine ⟨d, ds ++ (if e = 0 then [] else 'e' :: intChars e), ?_, Or.inr hd⟩
    rw [hren]
    unfold intChars
    rw [if_neg hm, hA, List.cons_append]

theorem renderChars_head (j : Json) :
    ∃ c r, renderChars j = c :: r ∧ ¬ c = ']' ∧ ¬ c = '\x7d' := by
  cases j with
  | null => exact ⟨'n', _, rfl, by decide, by decide⟩
  | bool b => cases b with
    | true => exact ⟨'t', _, rfl, by decide, by decide⟩
    | false => exact ⟨'f', _, rfl, by decide, by decide⟩
  | num m e =>
    obtain ⟨c, r, hcr, hc⟩ := renderNum_cons m e
    refine ⟨c, r, hcr, ?_, ?_⟩
    · rcases hc with h | h
      · subst h; decide
      · exact digit_ne c ']' h (by decide)
    · rcases hc with h | h
      · subst h; decide
      · exact digit_ne c '\x7d' h (by decide)
  | str s => exact ⟨'"', _, rfl, by decide, by decide⟩
  | arr xs => cases xs with
    | nil => exact ⟨'[', _, rfl, by decide, by decide⟩
    | cons x t => exact ⟨'[', _, rfl, by decide, by decide⟩
  | obj gs => cases gs with
    | nil => exact ⟨'\x7b', _, rfl, by decide, by decide⟩
    | cons g t => exact ⟨'\x7b', _, rfl, by decide, by decide⟩

theorem delim_elems (xs : List Json) (rest : List Char) (h : Delim rest) :
    Delim (renderElemsT xs ++ ']' :: rest) := by
  cases xs with
  | nil =>
    intro c hc
    rw [show renderElemsT [] = [] from rfl, List.nil_append, List.head?_cons,
        Option.some.injEq] at hc
    exact Or.inr (Or.inl hc.symm)
  | cons y ys =>
    intro c hc
    rw [show renderElemsT (y :: ys) = ',' :: renderChars y ++ renderElemsT ys from rfl] at hc
    rw [List.cons_append, List.cons_append, List.head?_cons, Option.some.injEq] at hc
    exact Or.inl hc.symm

theorem delim_fields (gs : List (String × Json)) (rest : List Char) (h : Delim rest) :
    Delim (renderFieldsT gs ++ '\x7d' :: rest) := by
  cases gs with
  | nil =>
    intro c hc
    rw [show renderFieldsT [] = [] from rfl, List.nil_append, List.head?_cons,
        Option.some.injEq] at hc
    exact Or.inr (Or.inr hc.symm)
  | cons g t =>
    intro c hc
    rw [show renderFieldsT (g :: t) =
          ',' :: '"' :: renderStrBody g.1.data ++ '"' :: ':' :: renderChars g.2
            ++ renderFieldsT t from rfl] at hc
    simp only [List.cons_append, List.head?_cons, Option.some.injEq] at hc
    exact Or.inl hc.symm

theorem escapeChar_ne_nil (c : Char) : 1 ≤ (escapeChar c).length := by
  unfold escapeChar
  split_ifs <;> simp

theorem renderStrBody_length (cs : List Char) : cs.length ≤ (renderStrBody cs).length := by
  induction cs with
  | nil => simp [renderStrBody]
  | cons c t ih =>
    have h1 := escapeChar_ne_nil c
    have hbody : renderStrBody (c :: t) = escapeChar c ++ renderStrBody t := by
      simp [renderStrBody]
    rw [hbody, List.length_append, List.length_cons]
    omega

theorem pStr_render (cs rest : List Char) :
    pStr (renderStrBody cs ++ '"' :: rest) = some (cs, rest) := by
  have hlb := renderStrBody_length cs
  refine pStrChars_render cs _ rest ?_
  simp only [List.length_append, List.length_cons]
  omega

mutual

theorem pVal_render : ∀ (j : Json) (fuel : Nat) (rest : List Char),
    jfuel j ≤ fuel → Delim rest →
    pVal fuel (renderChars j ++ rest) = some (j, rest)
  | .null, fuel, rest, hf, _ => by
    cases fuel with
    | zero => simp [jfuel] at hf
    | succ f => rfl
  | .bool true, fuel, rest, hf, _ => by
    cases fuel with
    | zero => simp [jfuel] at hf
    | succ f => rfl
  | .bool false, fuel, rest, hf, _ => by
    cases fuel with
    | zero => simp [jfuel] at hf
    | succ f => rfl
  | .num m e, fuel, rest, hf, hd => by
    cases fuel with
    | zero => simp [jfuel] at hf
    | succ f =>
      obtain ⟨c, r, hcr, hc⟩ := renderNum_cons m e
      have hne : ¬ c = 'n' ∧ ¬ c = 't' ∧ ¬ c = 'f' ∧ ¬ c = '"' ∧ ¬ c = '[' ∧ ¬ c = '\x7b' := by
        rcases hc with h | h
        · subst h
          refine ⟨?_, ?_, ?_, ?_, ?_, ?_⟩ <;> decide
        · exact ⟨digit_ne c 'n' h (by decide), digit_ne c 't' h (by decide),
            digit_ne c 'f' h (by decide), digit_ne c '"' h (by decide),
            digit_ne c '[' h (by decide), digit_ne c '\x7b' h (by decide)⟩
      rw [show renderChars (.num m e) = renderNum m e from rfl, hcr, List.cons_append,
          pVal_other f c _ hne, ← List.cons_append, ← hcr]
      exact pNum_render m e rest hd
  | .str s, fuel, rest, hf, _ => by
    cases fuel with
    | zero => simp [jfuel] at hf
    | succ f =>
      have hform : renderChars (.str s) ++ rest
          = '"' :: (renderStrBody s.data ++ '"' :: rest) := by
        rw [show renderChars (.str s) = '"' :: (renderStrBody s.data ++ ['"']) from rfl]
        simp [List.append_assoc]
      rw [hform, pVal_quote, pStr_render s.data rest]
      rfl
  | .arr [], fuel, rest, hf, _ => by
    cases fuel with
    | zero => simp [jfuel] at hf
    | succ f => rfl
  | .arr (x :: xs), fuel, rest, hf, hd => by
    cases fuel with
    | zero => simp [jfuel] at hf
    | succ f =>
      have hf2 : jfuelElems x xs ≤ f := by
        simp [jfuel] at hf
        omega
      obtain ⟨c, r, hcr, hc1, _⟩ := renderChars_head x
      have hform : renderChars (.arr (x :: xs)) ++ rest
          = '[' :: (renderChars x ++ (renderElemsT xs ++ ']' :: rest)) := by
        rw [show renderChars (.arr (x :: xs))
              = '[' :: (renderChars x ++ renderElemsT xs) ++ [']'] from rfl]
        simp [List.append_assoc]
      rw [hform, pVal_lbrack]
      rw [if_neg (show ¬ ((renderChars x ++ (renderElemsT xs ++ ']' :: rest)).head?
            = some ']') from by
        rw [hcr, List.cons_append, List.head?_cons]
        simp only [Option.some.injEq]
        exact hc1)]
      rw [pElems_render x xs f rest hf2 hd]
      rfl
  | .obj [], fuel, rest, hf, _ => by
    cases fuel with
    | zero => simp [jfuel] at hf
    | succ f => rfl
  | .obj (g :: gs), fuel, rest, hf, hd => by
    cases fuel with
    | zero => simp [jfuel] at hf
    | succ f =>
      have hf2 : jfuelFields g gs ≤ f := by
        simp [jfuel] at hf
        omega
      have hform : renderChars (.obj (g :: gs)) ++ rest
          = '\x7b' :: ('"' :: (renderStrBody g.1.data
              ++ '"' :: ':' :: (renderChars g.2 ++ (renderFieldsT gs ++ '\x7d' :: rest)))) := by
        rw [show renderChars (.obj (g :: gs))
              = '\x7b' :: ('"' :: renderStrBody g.1.data ++ '"' :: ':' :: renderChars g.2
                  ++ renderFieldsT gs) ++ ['\x7d'] from rfl]
        simp [List.append_assoc]
      rw [hform, pVal_lbrace]
      rw [if_neg (show ¬ ((('"' :: (renderStrBody g.1.data
            ++ '"' :: ':' :: (renderChars g.2 ++ (renderFieldsT gs ++ '\x7d' :: rest))))).head?
            = some '\x7d') from by
        rw [List.head?_cons, Option.some.injEq]
        decide)]
      rw [pFields_render g gs f rest hf2 hd]
      rfl
termination_by j _ _ _ _ => sizeOf j
decreasing_by
all_goals simp_wf
all_goals subst_vars
all_goals try simp only [List.cons.sizeOf_spec, Prod.mk.sizeOf_spec]
all_goals omega

theorem pElems_render : ∀ (x : Json) (xs : List Json) (fuel : Nat) (rest : List Char),
    jfuelElems x xs ≤ fuel → Delim rest →
    pElems fuel (renderChars x ++ (renderElemsT xs ++ ']' :: rest)) = some (x :: xs, rest)
  | x, xs, fuel, rest, hf, hd => by
    cases fuel with
    | zero => cases xs <;> simp [jfuelElems] at hf
    | succ f =>
      have hx : jfuel x ≤ f := by
        cases xs with
        | nil =>
          simp [jfuelElems] at hf
          omega
        | cons y ys =>
          simp [jfuelElems] at hf
          have hmax := Nat.le_max_left (jfuel x) (jfuelElems y ys)
          omega
      rw [pElems_succ, pVal_render x f _ hx (delim_elems xs rest hd)]
      cases xs with
      | nil => rfl
      | cons y ys =>
        have hy : jfuelElems y ys ≤ f := by
          simp [jfuelElems] at hf
          have hmax := Nat.le_max_right (jfuel x) (jfuelElems y ys)
          omega
        have hform : renderElemsT (y :: ys) ++ ']' :: rest
            = ',' :: (renderChars y ++ (renderElemsT ys ++ ']' :: rest)) := by
          rw [show renderElemsT (y :: ys) = ',' :: renderChars y ++ renderElemsT ys from rfl]
          simp [List.append_assoc]
        rw [hform]
        simp only [Option.bind]
        rw [pElems_render y ys f rest hy hd]
        rfl
termination_by x xs _ _ _ _ => 1 + sizeOf x + sizeOf xs
decreasing_by
all_goals simp_wf
all_goals subst_vars
all_goals try simp only [List.cons.sizeOf_spec, Prod.mk.sizeOf_spec]
all_goals omega

theorem pFields_render : ∀ (g : String × Json) (gs : List (String × Json)) (fuel : Nat)
    (rest : List Char),
    jfuelFields g gs ≤ fuel → Delim rest →
    pFields fuel ('"' :: (renderStrBody g.1.data
        ++ '"' :: ':' :: (renderChars g.2 ++ (renderFieldsT gs ++ '\x7d' :: rest))))
      = some (g :: gs, rest)
  | (k, v), gs, fuel, rest, hf, hd => by
    cases fuel with
    | zero => cases gs <;> simp [jfuelFields] at hf
    | succ f =>
      have hv : jfuel v ≤ f := by
        cases gs with
        | nil =>
          simp [jfuelFields] at hf
          omega
        | cons h hs =>
          simp [jfuelFields] at hf
          have hmax := Nat.le_max_left (jfuel v) (jfuelFields h hs)
          omega
      rw [pFields_succ_quote, pStr_render k.data _]
      simp only [Option.bind]
      rw [pVal_render v f _ hv (delim_fields gs rest hd)]
      simp only [Option.bind]
      cases gs with
      | nil => rfl
      | cons h hs =>
        have hh : jfuelFields h hs ≤ f := by
          simp [jfuelFields] at hf
          have hmax := Nat.le_max_right (jfuel v) (jfuelFields h hs)
          omega
        have hform : renderFieldsT (h :: hs) ++ '\x7d' :: rest
            = ',' :: ('"' :: (renderStrBody h.1.data
                ++ '"' :: ':' :: (renderChars h.2 ++ (renderFieldsT hs ++ '\x7d' :: rest)))) := by
          rw [show renderFieldsT (h :: hs)
                = ',' :: '"' :: renderStrBody h.1.data ++ '"' :: ':' :: renderChars h.2
                    ++ renderFieldsT hs from rfl]
          simp [List.append_assoc]
        rw [hform]
        show Option.map (fun q => ((String.mk k.data, v) :: q.1, q.2))
            (pFields f ('"' :: (renderStrBody h.1.data
              ++ '"' :: ':' :: (renderChars h.2 ++ (renderFieldsT hs ++ '\x7d' :: rest)))))
          = some ((k, v) :: h :: hs, rest)
        rw [pFields_render h hs f rest hh hd]
        rfl
termination_by g gs _ _ _ _ => 1 + sizeOf g + sizeOf gs
decreasing_by
all_goals simp_wf
all_goals subst_vars
all_goals try simp only [List.cons.sizeOf_spec, Prod.mk.sizeOf_spec]
all_goals omega

end

mutual

theorem jfuel_le_render : ∀ j : Json, jfuel j ≤ (renderChars j).length + 1
  | .null => by simp [jfuel]
  | .bool true => by simp [jfuel]
  | .bool false => by simp [jfuel]
  | .num m e => by simp [jfuel]
  | .str s => by simp [jfuel]
  | .arr [] => by simp [jfuel]
  | .arr (x :: xs) => by
    have h := jfuelElems_le_render x xs
    rw [show jfuel (.arr (x :: xs)) = 1 + jfuelElems x xs from by simp [jfuel]]
    rw [show renderChars (.arr (x :: xs))
          = '[' :: (renderChars x ++ renderElemsT xs) ++ [']'] from rfl]
    simp only [List.length_append, List.length_cons, List.length_nil] at *
    omega
  | .obj [] => by simp [jfuel]
  | .obj (g :: gs) => by
    have h := jfuelFields_le_render g gs
    rw [show jfuel (.obj (g :: gs)) = 1 + jfuelFields g gs from by simp [jfuel]]
    rw [show renderChars (.obj (g :: gs))
          = '\x7b' :: ('"' :: renderStrBody g.1.data ++ '"' :: ':' :: renderChars g.2
              ++ renderFieldsT gs) ++ ['\x7d'] from rfl]
    simp only [List.length_append, List.length_cons, List.length_nil] at *
    omega
termination_by j => sizeOf j
decreasing_by
all_goals simp_wf
all_goals subst_vars
all_goals try simp only [List.cons.sizeOf_spec, Prod.mk.sizeOf_spec]
all_goals omega

theorem jfuelElems_le_render : ∀ (x : Json) (xs : List Json),
    jfuelElems x xs ≤ (renderChars x ++ renderElemsT xs).length + 2
  | x, [] => by
    have h := jfuel_le_render x
    rw [show jfuelElems x [] = 1 + jfuel x from by simp [jfuelElems]]
    simp only [List.length_append] at *
    omega
  | x, y :: ys => by
    have h1 := jfuel_le_render x
    have h2 := jfuelElems_le_render y ys
    rw [show jfuelElems x (y :: ys) = 1 + max (jfuel x) (jfuelElems y ys) from by
      simp [jfuelElems]]
    rw [show renderElemsT (y :: ys) = ',' :: renderChars y ++ renderElemsT ys from rfl]
    have hmax : max (jfuel x) (jfuelElems y ys)
        ≤ (renderChars x ++ (',' :: renderChars y ++ renderElemsT ys)).length + 1 := by
      apply Nat.max_le.mpr
      constructor
      · simp only [List.length_append, List.length_cons] at *
        omega
      · simp only [List.length_append, List.length_cons] at *
        omega
    omega
termination_by x xs => 1 + sizeOf x + sizeOf xs
decreasing_by
all_goals simp_wf
all_goals subst_vars
all_goals try simp only [List.cons.sizeOf_spec, Prod.mk.sizeOf_spec]
all_goals omega

theorem jfuelFields_le_render : ∀ (g : String × Json) (gs : List (String × Json)),
    jfuelFields g gs ≤ (renderChars g.2 ++ renderFieldsT gs).length + 2
  | (k, v), [] => by
    have h := jfuel_le_render v
    rw [show jfuelFields (k, v) [] = 1 + jfuel v from by simp [jfuelFields]]
    dsimp only
    simp only [List.length_append] at *
    omega
  | (k, v), h :: hs => by
    have h1 := jfuel_le_render v
    have h2 := jfuelFields_le_render h hs
    rw [show jfuelFields (k, v) (h :: hs) = 1 + max (jfuel v) (jfuelFields h hs) from by
      simp [jfuelFields]]
    rw [show renderFieldsT (h :: hs)
          = ',' :: '"' :: renderStrBody h.1.data ++ '"' :: ':' :: renderChars h.2
              ++ renderFieldsT hs from rfl]
    dsimp only
    have hmax : max (jfuel v) (jfuelFields h hs)
        ≤ (renderChars v ++ (',' :: '"' :: renderStrBody h.1.data
            ++ '"' :: ':' :: renderChars h.2 ++ renderFieldsT hs)).length + 1 := by
      apply Nat.max_le.mpr
      constructor
      · simp only [List.length_append, List.length_cons] at *
        omega
      · simp only [List.length_append, List.length_cons] at *
        omega
    omega
termination_by g gs => 1 + sizeOf g + sizeOf gs
decreasing_by
all_goals simp_wf
all_goals subst_vars
all_goals try simp only [List.cons.sizeOf_spec, Prod.mk.sizeOf_spec]
all_goals omega

end

/-- Round trip through the modelled JSON builtins: `JSON.parse` inverts
`JSON.stringify`. -/
theorem jsonParse_render (j : Json) : jsonParse (jsonRender j) = some j := by
  unfold jsonParse jsonRender
  have hle : jfuel j ≤ (String.mk (renderChars j)).length + 1 := by
    have h := jfuel_le_render j
    rw [show (String.mk (renderChars j)).length = (renderChars j).length from rfl]
    omega
  have hp := pVal_render j ((String.mk (renderChars j)).length + 1) [] hle delim_nil
  rw [List.append_nil] at hp
  rw [show (String.mk (renderChars j)).data = renderChars j from rfl, hp]
  rfl

/-! ## Storage lemmas and claim theorems -/

/-- A backing store that never rejects a write. -/
def reliableStore (entries : List (String × String)) : RawStore :=
  ⟨entries, fun _ _ => false⟩

theorem lookup_insertEntry (l : List (String × String)) (k v : String) :
    (insertEntry l k v).lookup k = some v := by
  induction l with
  | nil => simp [insertEntry, List.lookup]
  | cons e rest ih =>
    obtain ⟨e1, e2⟩ := e
    unfold insertEntry
    by_cases he : (e1, e2).1 = k
    · rw [if_pos he]
      simp [List.lookup]
    · rw [if_neg he]
      have hne : (k == e1) = false := by
        rw [beq_eq_false_iff_ne]
        exact fun hh => he hh.symm
      simp [List.lookup, hne, ih]

theorem persist_ok (st : RawStore) (k s : String) (st' : RawStore)
    (h : TypedStorage.persist st k s = .ok st') :
    st'.getItem k = some s := by
  unfold TypedStorage.persist RawStore.setItem at h
  by_cases hf : st.failWrite k s = true
  · rw [if_pos hf] at h
    exact Except.noConfusion h
  · rw [if_neg hf] at h
    have h2 : { st with entries := insertEntry st.entries k s } = st' := by
      simpa using h
    rw [← h2]
    unfold RawStore.getItem
    exact lookup_insertEntry st.entries k s

/-- C8: `getItem` on a key with no entry in the Persistent Store returns
`null` and never invokes the Coercion Engine — for every override table the
result is `null` with no warnings and no error. -/
theorem C8_absent_key_returns_null (ov : Overrides) (st : RawStore) (k : String)
    (h : st.getItem k = none) :
    TypedStorage.getItem ov st k = .ok (none, []) := by
  unfold TypedStorage.getItem
  rw [h]

theorem C8_witness :
    (reliableStore [("a", "1")]).getItem "k" = none ∧
    TypedStorage.getItem noOverrides (reliableStore [("a", "1")]) "k" = .ok (none, []) :=
  ⟨rfl, C8_absent_key_returns_null noOverrides (reliableStore [("a", "1")]) "k" rfl⟩

/-- C5: override precedence.  When a key has a custom `serialize`, `setItem`
persists exactly that function's result (for every value, even ones default
serialization would reject); when it has a custom `deserialize`, `getItem`
returns exactly that function's result with no warnings (for every raw
string, even ones default inference would coerce or choke on). -/
theorem C5_override_precedence :
    (∀ (ov : Overrides) (st : RawStore) (k : String) (v : JSValue) (f : JSValue → String),
      ov.serialize k = some f → st.failWrite k (f v) = false →
      TypedStorage.setItem ov st k v
        = .ok { st with entries := insertEntry st.entries k (f v) }) ∧
    (∀ (ov : Overrides) (st : RawStore) (k raw : String) (f : String → JSValue),
      ov.deserialize k = some f → st.getItem k = some raw →
      TypedStorage.getItem ov st k = .ok (some (f raw), [])) := by
  constructor
  · intro ov st k v f hov hfail
    unfold TypedStorage.setItem TypedStorage.serializeFor
    rw [hov]
    show TypedStorage.persist st k (f v) = _
    unfold TypedStorage.persist RawStore.setItem
    rw [if_neg (by rw [hfail]; exact Bool.false_ne_true)]
  · intro ov st k raw f hov hst
    unfold TypedStorage.getItem
    rw [hst, hov]

def ovSerX : Overrides := ⟨fun _ => some (fun _ => "S"), fun _ => none⟩

def ovDeX : Overrides := ⟨fun _ => none, fun _ => some (fun _ => JSValue.bool true)⟩

theorem C5_witness :
    TypedStorage.setItem ovSerX (reliableStore []) "k" .undef
      = .ok { reliableStore [] with entries := insertEntry [] "k" "S" } ∧
    TypedStorage.getItem ovDeX (reliableStore [("k", "42")]) "k"
      = .ok (some (.bool true), []) :=
  ⟨C5_override_precedence.1 ovSerX (reliableStore []) "k" .undef _ rfl rfl,
   C5_override_precedence.2 ovDeX (reliableStore [("k", "42")]) "k" "42" _ rfl rfl⟩

/-- C7 counterexample: the claim says a value that is neither a string nor an
object/array and exposes no textual conversion makes `setItem` fail with
`UnsupportedType`; `null` is such a value (in JavaScript `null` has no
`toString`), yet `setItem` succeeds and persists `"null"`, because the code's
`typeof value === "object"` branch also captures `null`. -/
theorem C7_counterexample :
    TypedStorage.setItem noOverrides (reliableStore []) "k" .jsNull
      = .ok (reliableStore [("k", "null")]) ∧
    ∀ e : StorageError,
      TypedStorage.setItem noOverrides (reliableStore []) "k" .jsNull ≠ .error e := by
  refine ⟨rfl, ?_⟩
  intro e h
  rw [show TypedStorage.setItem noOverrides (reliableStore []) "k" .jsNull
        = .ok (reliableStore [("k", "null")]) from rfl] at h
  exact Except.noConfusion h

/-- C7 (amended): for a key with no serialize override, a string value is
persisted unchanged; a null, object or array value (`typeof` `"object"`) is
persisted via structural JSON encoding; a number, `NaN`, bigint or boolean is
persisted via its `toString` conversion; and `undefined`, which exposes none
of these, makes `setItem` fail synchronously with the `UnsupportedType`
error, persisting nothing. -/
theorem C7_default_serialization_amended (ov : Overrides) (st : RawStore) (k : String)
    (hov : ov.serialize k = none) :
    (∀ s, TypedStorage.setItem ov st k (.str s) = TypedStorage.persist st k s) ∧
    (TypedStorage.setItem ov st k .jsNull = TypedStorage.persist st k (jsonRender .null)) ∧
    (∀ xs, TypedStorage.setItem ov st k (.arr xs)
        = TypedStorage.persist st k (jsonRender (.arr xs))) ∧
    (∀ fs, TypedStorage.setItem ov st k (.obj fs)
        = TypedStorage.persist st k (jsonRender (.obj fs))) ∧
    (∀ m e, TypedStorage.setItem ov st k (.num m e)
        = TypedStorage.persist st k (String.mk (decToChars m e))) ∧
    (TypedStorage.setItem ov st k .nan = TypedStorage.persist st k "NaN") ∧
    (∀ i, TypedStorage.setItem ov st k (.big i)
        = TypedStorage.persist st k (String.mk (intChars i))) ∧
    (∀ b, TypedStorage.setItem ov st k (.bool b)
        = TypedStorage.persist st k (if b then "true" else "false")) ∧
    TypedStorage.setItem ov st k .undef = .error .unsupportedType := by
  have hser : ∀ v, TypedStorage.serializeFor ov k v = TypedStorage.toStorageString v := by
    intro v
    unfold TypedStorage.serializeFor
    rw [hov]
  refine ⟨fun s => ?_, ?_, fun xs => ?_, fun fs => ?_, fun m e => ?_, ?_, fun i => ?_,
    fun b => ?_, ?_⟩ <;>
    (unfold TypedStorage.setItem; rw [hser]) <;> first
      | rfl
      | (cases b <;> rfl)

theorem C7_witness :
    TypedStorage.setItem noOverrides (reliableStore []) "k" (.str "v")
      = TypedStorage.persist (reliableStore []) "k" "v" ∧
    TypedStorage.setItem noOverrides (reliableStore []) "k" .undef
      = .error .unsupportedType :=
  ⟨(C7_default_serialization_amended noOverrides (reliableStore []) "k" rfl).1 "v",
   (C7_default_serialization_amended noOverrides (reliableStore []) "k"
      rfl).2.2.2.2.2.2.2.2⟩

/-- C6: a raw string with the `\x7b`/`[` prefix that the JSON decode step
rejects does not fail the read: `getItem` returns the raw string unchanged
next to the diagnostic warning; and this is the only locally-recovered
failure — `parse` emits a warning only in exactly that situation, returning
the raw string. -/
theorem C6_malformed_json_recovered :
    (∀ (ov : Overrides) (st : RawStore) (k raw : String),
      ov.deserialize k = none →
      st.getItem k = some raw →
      (TypedStorage.startsWithChar raw '\x7b' || TypedStorage.startsWithChar raw '[') = true →
      jsonParse raw = none →
      TypedStorage.getItem ov st k = .ok (some (.str raw), [TypedStorage.warnMsg])) ∧
    (∀ (raw : String) (v : JSValue) (w : List String),
      TypedStorage.parse raw = .ok (v, w) → w ≠ [] →
      (TypedStorage.startsWithChar raw '\x7b' || TypedStorage.startsWithChar raw '[') = true ∧
      jsonParse raw = none ∧ v = .str raw ∧ w = [TypedStorage.warnMsg]) := by
  constructor
  · intro ov st k raw hov hst hpre hj
    unfold TypedStorage.getItem
    rw [hst, hov]
    show (TypedStorage.parse raw).map (fun p => (some p.1, p.2))
      = .ok (some (.str raw), [TypedStorage.warnMsg])
    unfold TypedStorage.parse
    rw [if_pos hpre, hj]
    rfl
  · intro raw v w hp hw
    unfold TypedStorage.parse at hp
    by_cases hpre :
        (TypedStorage.startsWithChar raw '\x7b' || TypedStorage.startsWithChar raw '[') = true
    · rw [if_pos hpre] at hp
      cases hj : jsonParse raw with
      | some j =>
        rw [hj] at hp
        simp only [Except.ok.injEq, Prod.mk.injEq] at hp
        exact absurd hp.2.symm hw
      | none =>
        rw [hj] at hp
        simp only [Except.ok.injEq, Prod.mk.injEq] at hp
        exact ⟨hpre, hj ▸ rfl, hp.1.symm, hp.2.symm⟩
    · rw [if_neg hpre] at hp
      by_cases hnum : (raw.data.all fun c => TypedStorage.numerics.contains c) = true
      · rw [if_pos hnum] at hp
        by_cases hasE : ((jsNumToChars (jsNumChars raw.data)).contains 'e') = true
        · rw [if_pos hasE] at hp
          cases hb : jsBigIntChars raw.data with
          | some i =>
            rw [hb] at hp
            simp only [Except.ok.injEq, Prod.mk.injEq] at hp
            exact absurd hp.2.symm hw
          | none =>
            rw [hb] at hp
            exact Except.noConfusion hp
        · rw [if_neg hasE] at hp
          simp only [Except.ok.injEq, Prod.mk.injEq] at hp
          exact absurd hp.2.symm hw
      · rw [if_neg hnum] at hp
        simp only [Except.ok.injEq, Prod.mk.injEq] at hp
        exact absurd hp.2.symm hw

theorem C6_witness :
    TypedStorage.getItem noOverrides (reliableStore [("k", "\x7b")]) "k"
      = .ok (some (.str "\x7b"), [TypedStorage.warnMsg]) :=
  C6_malformed_json_recovered.1 noOverrides (reliableStore [("k", "\x7b")]) "k" "\x7b"
    rfl rfl rfl rfl

/-- C10: default deserialization is not total.  The stored value
`"0.0000001"` passes the all-numeric scan, its `Number(...)` conversion
renders in exponential notation, and `BigInt("0.0000001")` throws, so
`getItem` raises the `SyntaxError`-derived `bigIntError` — outside the
spec's error taxonomy — instead of returning a value; and the empty string
vacuously passes the scan and is read back as the number `0`. -/
theorem C10_default_deserialization_not_total :
    ("0.0000001".data.all fun c => TypedStorage.numerics.contains c) = true ∧
    ((jsNumToChars (jsNumChars "0.0000001".data)).contains 'e') = true ∧
    jsBigIntChars "0.0000001".data = none ∧
    TypedStorage.getItem noOverrides (reliableStore [("k", "0.0000001")]) "k"
      = .error .bigIntError ∧
    TypedStorage.getItem noOverrides (reliableStore [("k", "")]) "k"
      = .ok (some (.num 0 0), []) :=
  ⟨rfl, rfl, rfl, rfl, rfl⟩

/-- C3 counterexample: at the stored value `"0.0000001"` every character is
in the numeric set and the converted number's rendering contains the
exponent marker, yet `getItem` does not return an arbitrary-precision
integer parsed from the original string — it throws, because
`BigInt("0.0000001")` rejects the decimal point. -/
theorem C3_counterexample :
    ("0.0000001".data.all fun c => TypedStorage.numerics.contains c) = true ∧
    ((jsNumToChars (jsNumChars "0.0000001".data)).contains 'e') = true ∧
    (TypedStorage.startsWithChar "0.0000001" '\x7b'
      || TypedStorage.startsWithChar "0.0000001" '[') = false ∧
    TypedStorage.getItem noOverrides (reliableStore [("k", "0.0000001")]) "k"
      = .error .bigIntError ∧
    ∀ i : Int,
      TypedStorage.getItem noOverrides (reliableStore [("k", "0.0000001")]) "k"
        ≠ .ok (some (.big i), []) := by
  refine ⟨rfl, rfl, rfl, rfl, ?_⟩
  intro i h
  rw [show TypedStorage.getItem noOverrides (reliableStore [("k", "0.0000001")]) "k"
        = .error .bigIntError from rfl] at h
  exact Except.noConfusion h

/-- C3 (amended): default numeric inference for a raw string without the
JSON prefix.  When every character is in the numeric set, the raw string is
converted by `Number(...)`; if that number's rendering contains the exponent
marker the result is instead the arbitrary-precision integer parsed from the
original string when that parse succeeds (and the thrown `SyntaxError` when
it does not); otherwise the number is returned.  When some character is
outside the set the raw string is returned unchanged.  In particular the
stored string `"42"` reads back as the number `42`. -/
theorem C3_numeric_inference_amended (ov : Overrides) (st : RawStore) (k raw : String)
    (hov : ov.deserialize k = none) (hst : st.getItem k = some raw)
    (hpre : (TypedStorage.startsWithChar raw '\x7b'
      || TypedStorage.startsWithChar raw '[') = false) :
    ((raw.data.all fun c => TypedStorage.numerics.contains c) = true →
      (((jsNumToChars (jsNumChars raw.data)).contains 'e') = false →
        TypedStorage.getItem ov st k = .ok (some (jsNumToJSValue (jsNumChars raw.data)), [])) ∧
      (((jsNumToChars (jsNumChars raw.data)).contains 'e') = true →
        (∀ i, jsBigIntChars raw.data = some i →
          TypedStorage.getItem ov st k = .ok (some (.big i), [])) ∧
        (jsBigIntChars raw.data = none →
          TypedStorage.getItem ov st k = .error .bigIntError))) ∧
    ((raw.data.all fun c => TypedStorage.numerics.contains c) = false →
      TypedStorage.getItem ov st k = .ok (some (.str raw), [])) ∧
    (raw = "42" → TypedStorage.getItem ov st k = .ok (some (.num 42 0), [])) := by
  have hg : TypedStorage.getItem ov st k
      = (TypedStorage.parse raw).map fun p => (some p.1, p.2) := by
    unfold TypedStorage.getItem
    rw [hst, hov]
  have hnp : ∀ X : Except StorageError (JSValue × List String),
      (TypedStorage.startsWithChar raw '\x7b'
        || TypedStorage.startsWithChar raw '[') = true → X = X := fun _ _ => rfl
  refine ⟨fun hnum => ⟨fun hne => ?_, fun hasE => ⟨fun i hb => ?_, fun hb => ?_⟩⟩,
    fun hnum => ?_, fun hraw => ?_⟩
  · rw [hg]
    unfold TypedStorage.parse
    rw [if_neg (by rw [hpre]; exact Bool.false_ne_true), if_pos hnum,
        if_neg (by rw [hne]; exact Bool.false_ne_true)]
    rfl
  · rw [hg]
    unfold TypedStorage.parse
    rw [if_neg (by rw [hpre]; exact Bool.false_ne_true), if_pos hnum, if_pos hasE, hb]
    rfl
  · rw [hg]
    unfold TypedStorage.parse
    rw [if_neg (by rw [hpre]; exact Bool.false_ne_true), if_pos hnum, if_pos hasE, hb]
    rfl
  · rw [hg]
    unfold TypedStorage.parse
    rw [if_neg (by rw [hpre]; exact Bool.false_ne_true),
        if_neg (by rw [hnum]; exact Bool.false_ne_true)]
    rfl
  · subst hraw
    rw [hg]
    rfl

theorem C3_witness :
    TypedStorage.getItem noOverrides (reliableStore [("k", "42")]) "k"
      = .ok (some (.num 42 0), []) :=
  (C3_numeric_inference_amended noOverrides (reliableStore [("k", "42")]) "k" "42"
    rfl rfl rfl).2.2 rfl

theorem startsJson_arr (xs : List Json) :
    (TypedStorage.startsWithChar (jsonRender (.arr xs)) '\x7b'
      || TypedStorage.startsWithChar (jsonRender (.arr xs)) '[') = true := by
  cases xs <;> rfl

theorem startsJson_obj (fs : List (String × Json)) :
    (TypedStorage.startsWithChar (jsonRender (.obj fs)) '\x7b'
      || TypedStorage.startsWithChar (jsonRender (.obj fs)) '[') = true := by
  cases fs <;> rfl

/-- C4 counterexample: writing the plain string `"42"` and reading it back
yields the number `42`, not the identical string (numeric inference), and
writing the plain string `"\x7b\x7d"` and reading it back yields the empty
object (JSON decoding), so the claim's unrestricted string round trip
fails. -/
theorem C4_counterexample :
    TypedStorage.setItem noOverrides (reliableStore []) "k" (.str "42")
      = .ok (reliableStore [("k", "42")]) ∧
    TypedStorage.getItem noOverrides (reliableStore [("k", "42")]) "k"
      = .ok (some (.num 42 0), []) ∧
    (JSValue.num 42 0 ≠ JSValue.str "42") ∧
    TypedStorage.setItem noOverrides (reliableStore []) "k" (.str "\x7b\x7d")
      = .ok (reliableStore [("k", "\x7b\x7d")]) ∧
    TypedStorage.getItem noOverrides (reliableStore [("k", "\x7b\x7d")]) "k"
      = .ok (some (.obj []), []) ∧
    (JSValue.obj [] ≠ JSValue.str "\x7b\x7d") := by
  refine ⟨rfl, rfl, ?_, rfl, rfl, ?_⟩ <;> (intro h; cases h)

/-- C4 (amended): for a key with no overrides, writing a plain string that
does not start with `\x7b` or `[` and has at least one character outside the
numeric set and reading it back yields the identical string; writing any
JSON-encodable object or array and reading it back yields a structurally
equal value. -/
theorem C4_roundtrip_amended (ov : Overrides) (st st' : RawStore) (k : String)
    (hser : ov.serialize k = none) (hde : ov.deserialize k = none) :
    (∀ s : String,
      (TypedStorage.startsWithChar s '\x7b' || TypedStorage.startsWithChar s '[') = false →
      (s.data.all fun c => TypedStorage.numerics.contains c) = false →
      TypedStorage.setItem ov st k (.str s) = .ok st' →
      TypedStorage.getItem ov st' k = .ok (some (.str s), [])) ∧
    (∀ xs : List Json,
      TypedStorage.setItem ov st k (.arr xs) = .ok st' →
      TypedStorage.getItem ov st' k = .ok (some (.arr xs), [])) ∧
    (∀ fs : List (String × Json),
      TypedStorage.setItem ov st k (.obj fs) = .ok st' →
      TypedStorage.getItem ov st' k = .ok (some (.obj fs), [])) := by
  have hsetv : ∀ (v : JSValue) (s2 : String), TypedStorage.toStorageString v = .ok s2 →
      TypedStorage.setItem ov st k v = TypedStorage.persist st k s2 := by
    intro v s2 hts
    unfold TypedStorage.setItem TypedStorage.serializeFor
    rw [hser, hts]
    rfl
  refine ⟨fun s hpre hnum hset => ?_, fun xs hset => ?_, fun fs hset => ?_⟩
  · have hp := persist_ok st k s st' (by rw [← hsetv (.str s) s rfl]; exact hset)
    unfold TypedStorage.getItem
    rw [hp, hde]
    show (TypedStorage.parse s).map (fun p => (some p.1, p.2)) = .ok (some (.str s), [])
    unfold TypedStorage.parse
    rw [if_neg (by rw [hpre]; exact Bool.false_ne_true),
        if_neg (by rw [hnum]; exact Bool.false_ne_true)]
    rfl
  · have hp := persist_ok st k (jsonRender (.arr xs)) st'
      (by rw [← hsetv (.arr xs) (jsonRender (.arr xs)) rfl]; exact hset)
    unfold TypedStorage.getItem
    rw [hp, hde]
    show (TypedStorage.parse (jsonRender (.arr xs))).map (fun p => (some p.1, p.2))
      = .ok (some (.arr xs), [])
    unfold TypedStorage.parse
    rw [if_pos (startsJson_arr xs), jsonParse_render (.arr xs)]
    rfl
  · have hp := persist_ok st k (jsonRender (.obj fs)) st'
      (by rw [← hsetv (.obj fs) (jsonRender (.obj fs)) rfl]; exact hset)
    unfold TypedStorage.getItem
    rw [hp, hde]
    show (TypedStorage.parse (jsonRender (.obj fs))).map (fun p => (some p.1, p.2))
      = .ok (some (.obj fs), [])
    unfold TypedStorage.parse
    rw [if_pos (startsJson_obj fs), jsonParse_render (.obj fs)]
    rfl

theorem C4_witness :
    TypedStorage.getItem noOverrides (reliableStore [("k", "abc")]) "k"
      = .ok (some (.str "abc"), []) ∧
    TypedStorage.getItem noOverrides (reliableStore [("k", "[]")]) "k"
      = .ok (some (.arr []), []) :=
  ⟨(C4_roundtrip_amended noOverrides (reliableStore []) (reliableStore [("k", "abc")]) "k"
      rfl rfl).1 "abc" rfl rfl rfl,
   (C4_roundtrip_amended noOverrides (reliableStore []) (reliableStore [("k", "[]")]) "k"
      rfl rfl).2.1 [] rfl⟩

/-! ## Live-layer lemmas and claim theorems -/

theorem mem_addKey (l : List String) (k : String) : k ∈ LiveStorage.addKey l k := by
  unfold LiveStorage.addKey
  by_cases h : l.contains k = true
  · rw [if_pos h]
    simpa using h
  · rw [if_neg h]
    simp

theorem mem_emitTo (subs : List (String × Nat)) (k : String) (v : Option JSValue)
    (d : String × Nat × Option JSValue) (h : d ∈ LiveStorage.emitTo subs k v) :
    d.2.2 = v := by
  unfold LiveStorage.emitTo at h
  obtain ⟨s, _, hs⟩ := List.mem_filterMap.mp h
  by_cases hp : s.1 = k
  · rw [if_pos hp] at hs
    obtain rfl : (k, s.2, v) = d := by simpa using hs
    rfl
  · rw [if_neg hp] at hs
    exact Option.noConfusion hs

theorem liveSetItem_ok (ov : Overrides) (st : LiveStorage.LiveState) (k : String)
    (v : JSValue) (s2 : RawStore)
    (h : TypedStorage.setItem ov st.store k v = .ok s2) :
    LiveStorage.liveSetItem ov st k v
      = ({ st with
           queue := st.queue ++ [.emit k (some v)],
           effectedKeys := LiveStorage.addKey st.effectedKeys k,
           store := s2 }, none) := by
  unfold LiveStorage.liveSetItem
  rw [h]

theorem liveSetItem_error (ov : Overrides) (st : LiveStorage.LiveState) (k : String)
    (v : JSValue) (e : StorageError)
    (h : TypedStorage.setItem ov st.store k v = .error e) :
    LiveStorage.liveSetItem ov st k v
      = ({ st with
           queue := st.queue ++ [.emit k (some v)],
           effectedKeys := LiveStorage.addKey st.effectedKeys k }, some e) := by
  unfold LiveStorage.liveSetItem
  rw [h]

theorem runOps_cons (ov : Overrides) (op : LiveStorage.LiveOp) (ops : List LiveStorage.LiveOp)
    (st : LiveStorage.LiveState) :
    LiveStorage.runOps ov st (op :: ops)
      = match (LiveStorage.runOp ov st op).2 with
        | none => LiveStorage.runOps ov (LiveStorage.runOp ov st op).1 ops
        | some e => ((LiveStorage.runOp ov st op).1, some e) := rfl

theorem runOps_append_split (ov : Overrides) (l1 l2 : List LiveStorage.LiveOp) :
    ∀ (st st2 : LiveStorage.LiveState),
    LiveStorage.runOps ov st (l1 ++ l2) = (st2, none) →
    ∃ st1, LiveStorage.runOps ov st l1 = (st1, none)
      ∧ LiveStorage.runOps ov st1 l2 = (st2, none) := by
  induction l1 with
  | nil => exact fun st st2 h => ⟨st, rfl, h⟩
  | cons op ops ih =>
    intro st st2 h
    rw [List.cons_append, runOps_cons] at h
    cases hp : (LiveStorage.runOp ov st op).2 with
    | none =>
      rw [hp] at h
      dsimp only at h
      obtain ⟨st1, h1, h2⟩ := ih _ st2 h
      refine ⟨st1, ?_, h2⟩
      rw [runOps_cons, hp]
      exact h1
    | some e =>
      rw [hp] at h
      dsimp only at h
      exact absurd (congrArg Prod.snd h) (by simp)

theorem runOps_sets (ov : Overrides) :
    ∀ (writes : List (String × JSValue)) (st st' : LiveStorage.LiveState),
    LiveStorage.runOps ov st (writes.map fun w => .set w.1 w.2) = (st', none) →
    st'.queue = st.queue ++ (writes.map fun w => .emit w.1 (some w.2)) ∧
    st'.subs = st.subs ∧ st'.delivered = st.delivered
  | [], st, st', h => by
    obtain rfl : st = st' := congrArg Prod.fst h
    exact ⟨by simp, rfl, rfl⟩
  | w :: ws, st, st', h => by
    rw [List.map_cons, runOps_cons] at h
    cases hset : TypedStorage.setItem ov st.store w.1 w.2 with
    | ok s2 =>
      rw [show LiveStorage.runOp ov st (.set w.1 w.2) = LiveStorage.liveSetItem ov st w.1 w.2
            from rfl, liveSetItem_ok ov st w.1 w.2 s2 hset] at h
      dsimp only at h
      have ih := runOps_sets ov ws _ st' h
      refine ⟨?_, ih.2.1, ih.2.2⟩
      rw [ih.1]
      simp
    | error e =>
      rw [show LiveStorage.runOp ov st (.set w.1 w.2) = LiveStorage.liveSetItem ov st w.1 w.2
            from rfl, liveSetItem_error ov st w.1 w.2 e hset] at h
      dsimp only at h
      exact absurd (congrArg Prod.snd h) (by simp)

theorem runOp_set (ov : Overrides) (st : LiveStorage.LiveState) (k : String) (v : JSValue) :
    LiveStorage.runOp ov st (.set k v) = LiveStorage.liveSetItem ov st k v := rfl

theorem flatMap_emit_tasks (st : LiveStorage.LiveState) (ws : List (String × JSValue)) :
    (ws.map fun w => LiveStorage.Task.emit w.1 (some w.2)).flatMap (LiveStorage.runTask st)
      = ws.flatMap fun w => LiveStorage.emitTo st.subs w.1 (some w.2) := by
  induction ws with
  | nil => rfl
  | cons w t ih =>
    rw [List.map_cons, List.flatMap_cons, List.flatMap_cons, ih]
    rfl

/-- C1: in an execution that performs writes and then `clear()`, the deferred
clear-loop reads the Active-Key Set only when the drain runs — strictly after
`clear()` emptied it synchronously — so it observes zero keys: the drained
delivery log consists exactly of the per-write emissions, and no subscriber
ever receives a `null` clear-notification. -/
theorem C1_clear_notifications_lost (ov : Overrides) (subs : List (String × Nat))
    (entries : List (String × String)) (writes : List (String × JSValue))
    (st1 : LiveStorage.LiveState)
    (hne : writes ≠ [])
    (hrun : LiveStorage.runOps ov (LiveStorage.initLive subs entries)
        ((writes.map fun w => LiveStorage.LiveOp.set w.1 w.2) ++ [LiveStorage.LiveOp.clear])
      = (st1, none)) :
    (LiveStorage.drain st1).delivered
      = writes.flatMap (fun w => LiveStorage.emitTo subs w.1 (some w.2)) ∧
    ∀ d ∈ (LiveStorage.drain st1).delivered, d.2.2 ≠ none := by
  obtain ⟨stW, hW, hC⟩ := runOps_append_split ov _ _ _ _ hrun
  have hsets := runOps_sets ov writes _ stW hW
  have hC2 : LiveStorage.liveClear stW = st1 := congrArg Prod.fst hC
  have hmain : (LiveStorage.drain st1).delivered
      = writes.flatMap fun w => LiveStorage.emitTo subs w.1 (some w.2) := by
    rw [← hC2]
    show stW.delivered ++ (stW.queue ++ [LiveStorage.Task.clearEmit]).flatMap
        (LiveStorage.runTask (LiveStorage.liveClear stW)) = _
    rw [List.flatMap_append, hsets.2.2, hsets.1,
        show (LiveStorage.initLive subs entries).queue = [] from rfl,
        show (LiveStorage.initLive subs entries).delivered = [] from rfl,
        List.nil_append, List.nil_append,
        flatMap_emit_tasks (LiveStorage.liveClear stW) writes,
        show (LiveStorage.liveClear stW).subs = stW.subs from rfl, hsets.2.1,
        show (LiveStorage.initLive subs entries).subs = subs from rfl]
    show writes.flatMap (fun w => LiveStorage.emitTo subs w.1 (some w.2)) ++ ([] ++ []) = _
    simp
  refine ⟨hmain, ?_⟩
  intro d hd
  rw [hmain] at hd
  obtain ⟨w, _, hdm⟩ := List.mem_flatMap.mp hd
  rw [mem_emitTo subs w.1 (some w.2) d hdm]
  simp

theorem C1_witness :
    ([(("a" : String), JSValue.num 1 0)] ≠ ([] : List (String × JSValue))) ∧
    ((LiveStorage.drain (LiveStorage.runOps noOverrides (LiveStorage.initLive [("a", 0)] [])
        (([(("a" : String), JSValue.num 1 0)].map fun w => LiveStorage.LiveOp.set w.1 w.2)
          ++ [LiveStorage.LiveOp.clear])).1).delivered
      = [(("a" : String), JSValue.num 1 0)].flatMap
          (fun w => LiveStorage.emitTo [("a", 0)] w.1 (some w.2)) ∧
    ∀ d ∈ (LiveStorage.drain (LiveStorage.runOps noOverrides (LiveStorage.initLive [("a", 0)] [])
        (([(("a" : String), JSValue.num 1 0)].map fun w => LiveStorage.LiveOp.set w.1 w.2)
          ++ [LiveStorage.LiveOp.clear])).1).delivered, d.2.2 ≠ none) :=
  ⟨List.cons_ne_nil _ _,
   C1_clear_notifications_lost noOverrides [("a", 0)] [] [("a", .num 1 0)] _
     (List.cons_ne_nil _ _) rfl⟩

/-- C2: two synchronous writes to `"x"` (any two serializable values) with one
subscriber on `"x"` leave nothing delivered while the caller's turn is still
running, and the drain that follows the turn delivers exactly two
notifications, in write order, each carrying the exact value of its own call. -/
theorem C2_write_order (v1 v2 : JSValue) (s1 s2 : String)
    (h1 : TypedStorage.toStorageString v1 = .ok s1)
    (h2 : TypedStorage.toStorageString v2 = .ok s2) :
    (LiveStorage.runOps noOverrides (LiveStorage.initLive [("x", 0)] [])
        [.set "x" v1, .set "x" v2]).2 = none ∧
    (LiveStorage.runOps noOverrides (LiveStorage.initLive [("x", 0)] [])
        [.set "x" v1, .set "x" v2]).1.delivered = [] ∧
    (LiveStorage.drain (LiveStorage.runOps noOverrides (LiveStorage.initLive [("x", 0)] [])
        [.set "x" v1, .set "x" v2]).1).delivered
      = [("x", 0, some v1), ("x", 0, some v2)] := by
  have hser1 : TypedStorage.serializeFor noOverrides "x" v1 = .ok s1 := by
    rw [show TypedStorage.serializeFor noOverrides "x" v1
        = TypedStorage.toStorageString v1 from rfl, h1]
  have hser2 : TypedStorage.serializeFor noOverrides "x" v2 = .ok s2 := by
    rw [show TypedStorage.serializeFor noOverrides "x" v2
        = TypedStorage.toStorageString v2 from rfl, h2]
  have hs1 : TypedStorage.setItem noOverrides (LiveStorage.initLive [("x", 0)] []).store "x" v1
      = .ok ⟨[("x", s1)], fun _ _ => false⟩ := by
    unfold TypedStorage.setItem
    rw [hser1]
    rfl
  have hs2 : TypedStorage.setItem noOverrides
      (⟨[("x", s1)], fun _ _ => false⟩ : RawStore) "x" v2
      = .ok ⟨[("x", s2)], fun _ _ => false⟩ := by
    unfold TypedStorage.setItem
    rw [hser2]
    rfl
  have e1 := liveSetItem_ok noOverrides (LiveStorage.initLive [("x", 0)] []) "x" v1
    ⟨[("x", s1)], fun _ _ => false⟩ hs1
  have e2 := liveSetItem_ok noOverrides
    { LiveStorage.initLive [("x", 0)] [] with
      queue := (LiveStorage.initLive [("x", 0)] []).queue
        ++ [LiveStorage.Task.emit "x" (some v1)],
      effectedKeys := LiveStorage.addKey (LiveStorage.initLive [("x", 0)] []).effectedKeys "x",
      store := ⟨[("x", s1)], fun _ _ => false⟩ } "x" v2
    ⟨[("x", s2)], fun _ _ => false⟩ hs2
  refine ⟨?_, ?_, ?_⟩ <;>
    (rw [runOps_cons, runOp_set, e1]
     dsimp only
     rw [runOps_cons, runOp_set, e2]
     rfl)

theorem C2_witness :
    (LiveStorage.runOps noOverrides (LiveStorage.initLive [("x", 0)] [])
        [.set "x" (.num 1 0), .set "x" (.num 2 0)]).2 = none ∧
    (LiveStorage.runOps noOverrides (LiveStorage.initLive [("x", 0)] [])
        [.set "x" (.num 1 0), .set "x" (.num 2 0)]).1.delivered = [] ∧
    (LiveStorage.drain (LiveStorage.runOps noOverrides (LiveStorage.initLive [("x", 0)] [])
        [.set "x" (.num 1 0), .set "x" (.num 2 0)]).1).delivered
      = [("x", 0, some (JSValue.num 1 0)), ("x", 0, some (JSValue.num 2 0))] :=
  C2_write_order (.num 1 0) (.num 2 0) "1" "2" rfl rfl

/-- C9: when the backing store rejects the write (quota), `LiveStorage.setItem`
has already scheduled the `(key, value)` emission and added the key to the
Active-Key Set before the throw: the call returns the quota error with both
notifier mutations in place, the key is in the Active-Key Set, nothing was
persisted, and a subsequent drain still delivers the new value to the key's
subscribers — the failed mutation is not atomic with respect to notifier
state. -/
theorem C9_failed_write_keeps_notifier_state (ov : Overrides)
    (st : LiveStorage.LiveState) (k : String) (v : JSValue) (s : String)
    (hs : TypedStorage.serializeFor ov k v = .ok s)
    (hfail : st.store.failWrite k s = true) :
    LiveStorage.liveSetItem ov st k v
      = ({ st with
           queue := st.queue ++ [.emit k (some v)],
           effectedKeys := LiveStorage.addKey st.effectedKeys k }, some .quota) ∧
    k ∈ LiveStorage.addKey st.effectedKeys k ∧
    (LiveStorage.liveSetItem ov st k v).1.store = st.store ∧
    (LiveStorage.drain (LiveStorage.liveSetItem ov st k v).1).delivered
      = st.delivered
        ++ st.queue.flatMap (LiveStorage.runTask (LiveStorage.liveSetItem ov st k v).1)
        ++ LiveStorage.emitTo st.subs k (some v) := by
  have hset : TypedStorage.setItem ov st.store k v = .error .quota := by
    unfold TypedStorage.setItem
    rw [hs]
    show TypedStorage.persist st.store k s = .error .quota
    unfold TypedStorage.persist RawStore.setItem
    rw [hfail]
    rfl
  have e := liveSetItem_error ov st k v .quota hset
  refine ⟨e, mem_addKey _ _, ?_, ?_⟩
  · rw [e]
  · rw [e]
    show st.delivered ++ (st.queue ++ [LiveStorage.Task.emit k (some v)]).flatMap
        (LiveStorage.runTask _) = _
    rw [List.flatMap_append]
    simp [LiveStorage.runTask]

theorem C9_witness :
    TypedStorage.serializeFor noOverrides "k" (JSValue.num 1 0) = .ok "1" ∧
    (RawStore.mk [] (fun _ _ => true)).failWrite "k" "1" = true ∧
    (LiveStorage.liveSetItem noOverrides
        ⟨⟨[], fun _ _ => true⟩, [], [("k", 0)], [], []⟩ "k" (.num 1 0)
      = ({ (⟨⟨[], fun _ _ => true⟩, [], [("k", 0)], [], []⟩ : LiveStorage.LiveState) with
           queue := (⟨⟨[], fun _ _ => true⟩, [], [("k", 0)], [], []⟩
             : LiveStorage.LiveState).queue ++ [.emit "k" (some (.num 1 0))],
           effectedKeys := LiveStorage.addKey
             (⟨⟨[], fun _ _ => true⟩, [], [("k", 0)], [], []⟩
               : LiveStorage.LiveState).effectedKeys "k" }, some .quota) ∧
    "k" ∈ LiveStorage.addKey
        (⟨⟨[], fun _ _ => true⟩, [], [("k", 0)], [], []⟩
          : LiveStorage.LiveState).effectedKeys "k" ∧
    (LiveStorage.liveSetItem noOverrides
        ⟨⟨[], fun _ _ => true⟩, [], [("k", 0)], [], []⟩ "k" (.num 1 0)).1.store
      = (⟨⟨[], fun _ _ => true⟩, [], [("k", 0)], [], []⟩ : LiveStorage.LiveState).store ∧
    (LiveStorage.drain (LiveStorage.liveSetItem noOverrides
        ⟨⟨[], fun _ _ => true⟩, [], [("k", 0)], [], []⟩ "k" (.num 1 0)).1).delivered
      = (⟨⟨[], fun _ _ => true⟩, [], [("k", 0)], [], []⟩ : LiveStorage.LiveState).delivered
        ++ (⟨⟨[], fun _ _ => true⟩, [], [("k", 0)], [], []⟩
            : LiveStorage.LiveState).queue.flatMap
          (LiveStorage.runTask (LiveStorage.liveSetItem noOverrides
            ⟨⟨[], fun _ _ => true⟩, [], [("k", 0)], [], []⟩ "k" (.num 1 0)).1)
        ++ LiveStorage.emitTo
            (⟨⟨[], fun _ _ => true⟩, [], [("k", 0)], [], []⟩ : LiveStorage.LiveState).subs
            "k" (some (.num 1 0))) :=
  ⟨rfl, rfl,
   C9_failed_write_keeps_notifier_state noOverrides
     ⟨⟨[], fun _ _ => true⟩, [], [("k", 0)], [], []⟩ "k" (.num 1 0) "1" rfl rfl⟩
